import Mathlib

/-!
Verification of the PoolSync_Mantle pool-synchronization library.

This file gives a shallow embedding, in Lean 4, of the parts of the
repository that the verified properties talk about:

* the Uniswap-V3-style concentrated-liquidity state machine
  (src/pools/pool_structures/v3_structure.rs): TickInfo, UniswapV3Pool,
  update_tick, flip_tick, update_position, modify_position;
* the defensive numeric decoding of bulk-read tuples
  (v3_structure.rs and v2_structure.rs From impls);
* the pool validity filter of the batch populator
  (src/pools/pool_builder.rs populate_pool_data, src/pools/mod.rs is_valid);
* the retry loop of build_pools (src/pools/pool_builder.rs);
* the per-protocol round step of the sync orchestrator
  (src/pool_sync.rs sync_pools).

Machine integers are embedded as Nat / Int with explicit range checks:
Rust u128/i128/i32/u64 arithmetic whose overflow, underflow or division
by zero would panic is modelled as an Option-valued operation returning
none exactly on the panicking inputs.  Sparse HashMaps are embedded as
functions into Option, queried and updated pointwise.
-/

/-! ### Machine-integer helpers -/

def u128Max : Nat := 2 ^ 128 - 1

def i128Min : Int := -(2 ^ 127)

def i128Max : Int := 2 ^ 127 - 1

def i32Min : Int := -(2 ^ 31)

def i32Max : Int := 2 ^ 31 - 1

/-- Rust u128 addition; none models the overflow panic. -/
def addU128 (a b : Nat) : Option Nat :=
  if a + b ≤ u128Max then some (a + b) else none

/-- Rust u128 subtraction; none models the underflow panic. -/
def subU128 (a b : Nat) : Option Nat :=
  if b ≤ a then some (a - b) else none

/-- Rust i128 addition; none models the overflow panic. -/
def addI128 (a b : Int) : Option Int :=
  if i128Min ≤ a + b ∧ a + b ≤ i128Max then some (a + b) else none

/-- Rust i128 subtraction; none models the overflow panic. -/
def subI128 (a b : Int) : Option Int :=
  if i128Min ≤ a - b ∧ a - b ≤ i128Max then some (a - b) else none

/-- Rust i128 negation; none models the panic at i128::MIN. -/
def negI128 (a : Int) : Option Int :=
  if a = i128Min then none else some (-a)

/-- Rust i32 division (truncation toward zero); none models the panics on
division by zero and on i32::MIN / -1. -/
def divI32 (a b : Int) : Option Int :=
  if b = 0 ∨ (a = i32Min ∧ b = -1) then none else some (Int.tdiv a b)

/-! ### Concentrated-liquidity pool state (v3_structure.rs) -/

/-- TickInfo from v3_structure.rs. -/
structure TickInfo where
  liquidity_net : Int
  initialized : Bool
  liquidity_gross : Nat
deriving DecidableEq

/-- TickInfo::default(): all fields zero / false. -/
def TickInfo.empty : TickInfo :=
  { liquidity_net := 0, initialized := false, liquidity_gross := 0 }

/-- UniswapV3Pool from v3_structure.rs.  Addresses are 160-bit numbers,
U256 fields are Nat, the sparse HashMaps (i16 to U256 bitmap words, i32 to
TickInfo) are functions into Option. -/
structure UniswapV3Pool where
  address : Nat
  token0 : Nat
  token1 : Nat
  token0_name : String
  token1_name : String
  token0_decimals : Nat
  token1_decimals : Nat
  liquidity : Nat
  sqrt_price : Nat
  fee : Nat
  tick : Int
  tick_spacing : Int
  tick_bitmap : Int → Option Nat
  ticks : Int → Option TickInfo

/-- UniswapV3Pool::default(): zero / empty everywhere. -/
def UniswapV3Pool.empty : UniswapV3Pool :=
  { address := 0, token0 := 0, token1 := 0, token0_name := "", token1_name := ""
    token0_decimals := 0, token1_decimals := 0, liquidity := 0, sqrt_price := 0
    fee := 0, tick := 0, tick_spacing := 0
    tick_bitmap := fun _ => none, ticks := fun _ => none }

/-- Pointwise update of a sparse map embedded as a function. -/
def setAt {α : Type} (m : Int → Option α) (k : Int) (v : Option α) : Int → Option α :=
  fun k' => if k' = k then v else m k'

/-- Gross liquidity recorded at a tick (0 when the tick is absent,
matching TickInfo::default()). -/
def grossOf (pool : UniswapV3Pool) (tick : Int) : Nat :=
  ((pool.ticks tick).getD TickInfo.empty).liquidity_gross

/-- Net liquidity recorded at a tick (0 when the tick is absent). -/
def netOf (pool : UniswapV3Pool) (tick : Int) : Int :=
  ((pool.ticks tick).getD TickInfo.empty).liquidity_net

/-- Initialized flag recorded at a tick (false when the tick is absent). -/
def initOf (pool : UniswapV3Pool) (tick : Int) : Bool :=
  ((pool.ticks tick).getD TickInfo.empty).initialized

/-- Value of one bitmap bit: bit b of the 256-bit word stored at word
index w (an absent word reads as zero). -/
def bitmapBit (pool : UniswapV3Pool) (w : Int) (b : Nat) : Bool :=
  ((pool.tick_bitmap w).getD 0).testBit b

/-- Modelled from the spec: the external helper
uniswap_v3_math::tick_bitmap::position, whose source is not part of this
repository.  Per the spec, for a scaled tick it returns word =
floor(scaled / 256) and bit = scaled mod 256; for the positive divisor
256, Lean's Int division / emod are exactly floor division with a
nonnegative remainder. -/
def position (scaled : Int) : Int × Nat :=
  (scaled / 256, (scaled % 256).toNat)

/-- update_tick from v3_structure.rs.  Returns the updated pool and the
flipped flag; none models a panicking execution (u128/i128
overflow or underflow).  When the tick is absent a TickInfo::default() is
created, exactly as the Rust code inserts one before mutating it. -/
def update_tick (pool : UniswapV3Pool) (tick : Int) (liquidity_delta : Int)
    (upper : Bool) : Option (UniswapV3Pool × Bool) :=
  let info := (pool.ticks tick).getD TickInfo.empty
  let liquidity_gross_before := info.liquidity_gross
  let grossRes : Option Nat :=
    if liquidity_delta < 0 then
      match negI128 liquidity_delta with
      | none => none
      | some m => subU128 liquidity_gross_before m.toNat
    else
      addU128 liquidity_gross_before liquidity_delta.toNat
  match grossRes with
  | none => none
  | some liquidity_gross_after =>
    let flipped := (decide (liquidity_gross_after = 0)) != (decide (liquidity_gross_before = 0))
    let initialized := if liquidity_gross_before = 0 then true else info.initialized
    let netRes : Option Int :=
      if upper then subI128 info.liquidity_net liquidity_delta
      else addI128 info.liquidity_net liquidity_delta
    match netRes with
    | none => none
    | some liquidity_net =>
      some ({ pool with
                ticks := setAt pool.ticks tick (some { liquidity_net := liquidity_net,
                                                       initialized := initialized,
                                                       liquidity_gross := liquidity_gross_after }) },
            flipped)

/-- flip_tick from v3_structure.rs.  The scaled tick is the Rust i32
quotient tick / tick_spacing (truncation toward zero); none models the
division panic.  An existing word is xor-ed with the mask in place, a
missing word is inserted as the mask. -/
def flip_tick (pool : UniswapV3Pool) (tick : Int) (tick_spacing : Int) :
    Option UniswapV3Pool :=
  match divI32 tick tick_spacing with
  | none => none
  | some scaled =>
    let word_pos := (position scaled).1
    let bit_pos := (position scaled).2
    let mask : Nat := 2 ^ bit_pos
    let word' : Nat :=
      match pool.tick_bitmap word_pos with
      | some w => w ^^^ mask
      | none => mask
    some { pool with tick_bitmap := setAt pool.tick_bitmap word_pos (some word') }

/-- update_position from v3_structure.rs: update both boundary ticks,
toggle the bitmap bit of each boundary whose gross-is-zero status
flipped, and on a burn remove the TickInfo of each flipped boundary. -/
def update_position (pool : UniswapV3Pool) (tick_lower tick_upper : Int)
    (liquidity_delta : Int) : Option UniswapV3Pool :=
  if liquidity_delta ≠ 0 then
    match update_tick pool tick_lower liquidity_delta false with
    | none => none
    | some (pool1, flipped_lower) =>
      match update_tick pool1 tick_upper liquidity_delta true with
      | none => none
      | some (pool2, flipped_upper) =>
        let flipRes : Option UniswapV3Pool :=
          if flipped_lower then flip_tick pool2 tick_lower pool2.tick_spacing
          else some pool2
        match flipRes with
        | none => none
        | some pool3 =>
          let flipRes2 : Option UniswapV3Pool :=
            if flipped_upper then flip_tick pool3 tick_upper pool3.tick_spacing
            else some pool3
          match flipRes2 with
          | none => none
          | some pool4 =>
            let pool5 :=
              if liquidity_delta < 0 ∧ flipped_lower then
                { pool4 with ticks := setAt pool4.ticks tick_lower none }
              else pool4
            let pool6 :=
              if liquidity_delta < 0 ∧ flipped_upper then
                { pool5 with ticks := setAt pool5.ticks tick_upper none }
              else pool5
            some pool6
  else
    some pool

/-- modify_position from v3_structure.rs: run update_position, then, when
the delta is nonzero, this is not the initial sync and the current tick
lies in the half-open range, move the aggregate liquidity by the delta
(checked u128 arithmetic; none models the panic). -/
def modify_position (pool : UniswapV3Pool) (tick_lower tick_upper : Int)
    (liquidity_delta : Int) (is_initial_sync : Bool) : Option UniswapV3Pool :=
  match update_position pool tick_lower tick_upper liquidity_delta with
  | none => none
  | some pool1 =>
    if liquidity_delta ≠ 0 ∧ is_initial_sync = false then
      if tick_lower ≤ pool1.tick ∧ pool1.tick < tick_upper then
        let liqRes : Option Nat :=
          if liquidity_delta < 0 then
            match negI128 liquidity_delta with
            | none => none
            | some m => subU128 pool1.liquidity m.toNat
          else
            addU128 pool1.liquidity liquidity_delta.toNat
        match liqRes with
        | none => none
        | some liq => some { pool1 with liquidity := liq }
      else some pool1
    else some pool1

/-! ### Bulk-read tuple decoding (DynSolValue, From impls) -/

/-- Minimal model of alloy DynSolValue: only the variants the decode
paths inspect.  Addresses are 160-bit numbers, uints are U256 values,
ints are 256-bit signed values. -/
inductive DynSolValue where
  | address (a : Nat)
  | uint (v : Nat)
  | int (v : Int)
deriving DecidableEq

/-- alloy as_address: some exactly on the Address variant. -/
def DynSolValue.as_address : DynSolValue → Option Nat
  | .address a => some a
  | _ => none

/-- alloy as_uint: some exactly on the Uint variant. -/
def DynSolValue.as_uint : DynSolValue → Option Nat
  | .uint v => some v
  | _ => none

/-- alloy as_int: some exactly on the Int variant. -/
def DynSolValue.as_int : DynSolValue → Option Int
  | .int v => some v
  | _ => none

/-- safe_u8_conversion from v3_structure.rs: unwrap the uint (none models
the unwrap panic on a non-uint), default to 18 when the value exceeds a
byte. -/
def safe_u8_conversion (value : DynSolValue) : Option Nat :=
  match value.as_uint with
  | none => none
  | some v => some (if 255 < v then 18 else v)

/-- safe_u32_conversion from v3_structure.rs: unwrap the uint, default to
3000 when the value exceeds 32 bits. -/
def safe_u32_conversion (value : DynSolValue) : Option Nat :=
  match value.as_uint with
  | none => none
  | some v => some (if 2 ^ 32 - 1 < v then 3000 else v)

/-- safe_i32_conversion from v3_structure.rs: a non-int value or an int
outside the i32 range defaults to 0; total, never fails. -/
def safe_i32_conversion (value : DynSolValue) : Int :=
  match value.as_int with
  | none => 0
  | some s => if i32Min ≤ s ∧ s ≤ i32Max then s else 0

/-- From&lt;&amp;[DynSolValue]&gt; for UniswapV3Pool: indexes 0..9 of the decoded
tuple; unwraps on addresses and uints model the corresponding panics and
the numeric narrowing defaults follow the safe conversion helpers;
the remaining fields come from Default::default(). -/
def uniswapV3PoolFromData (data : List DynSolValue) : Option UniswapV3Pool :=
  match (data.get? 0).bind DynSolValue.as_address,
        (data.get? 1).bind DynSolValue.as_address,
        (data.get? 2).bind safe_u8_conversion,
        (data.get? 3).bind DynSolValue.as_address,
        (data.get? 4).bind safe_u8_conversion,
        (data.get? 5).bind DynSolValue.as_uint,
        (data.get? 6).bind DynSolValue.as_uint,
        data.get? 7,
        data.get? 8,
        (data.get? 9).bind safe_u32_conversion with
  | some address, some token0, some dec0, some token1, some dec1,
    some liquidityRaw, some sqrtPrice, some d7, some d8, some fee =>
    some { UniswapV3Pool.empty with
             address := address, token0 := token0, token0_decimals := dec0
             token1 := token1, token1_decimals := dec1
             liquidity := if liquidityRaw ≤ u128Max then liquidityRaw else 0
             sqrt_price := sqrtPrice
             tick := safe_i32_conversion d7
             tick_spacing := safe_i32_conversion d8
             fee := fee }
  | _, _, _, _, _, _, _, _, _, _ => none

/-- MerchantMoeV2Pool from v2_structure.rs: addresses, decimals and the
two U256 reserves. -/
structure MerchantMoeV2Pool where
  address : Nat
  token0 : Nat
  token1 : Nat
  token0_name : String
  token1_name : String
  token0_decimals : Nat
  token1_decimals : Nat
  token0_reserves : Nat
  token1_reserves : Nat
deriving DecidableEq

/-- MerchantMoeV2Pool::default(). -/
def MerchantMoeV2Pool.empty : MerchantMoeV2Pool :=
  { address := 0, token0 := 0, token1 := 0, token0_name := "", token1_name := ""
    token0_decimals := 0, token1_decimals := 0, token0_reserves := 0, token1_reserves := 0 }

/-- Rust Uint::to::&lt;u8&gt; used by the v2 decode: none models the panic
raised when the value does not fit in a byte (unlike the v3 decode,
there is no default here). -/
def uintToU8 (v : Nat) : Option Nat :=
  if v ≤ 255 then some v else none

/-- From&lt;&amp;[DynSolValue]&gt; for MerchantMoeV2Pool: indexes 0..6; decimals
are narrowed with the panicking to::&lt;u8&gt;, reserves are full-width. -/
def merchantMoeV2PoolFromData (data : List DynSolValue) : Option MerchantMoeV2Pool :=
  match (data.get? 0).bind DynSolValue.as_address,
        (data.get? 1).bind DynSolValue.as_address,
        (data.get? 2).bind DynSolValue.as_address,
        ((data.get? 3).bind DynSolValue.as_uint).bind uintToU8,
        ((data.get? 4).bind DynSolValue.as_uint).bind uintToU8,
        (data.get? 5).bind DynSolValue.as_uint,
        (data.get? 6).bind DynSolValue.as_uint with
  | some address, some token0, some token1, some dec0, some dec1, some r0, some r1 =>
    some { MerchantMoeV2Pool.empty with
             address := address, token0 := token0, token1 := token1
             token0_decimals := dec0, token1_decimals := dec1
             token0_reserves := r0, token1_reserves := r1 }
  | _, _, _, _, _, _, _ => none

/-! ### Pool enum and populate filter (pools/mod.rs, pool_builder.rs) -/

/-- PoolType from pools/mod.rs. -/
inductive PoolType where
  | UniswapV3
  | MerchantMoe
  | Agni
deriving DecidableEq

/-- Pool from pools/mod.rs: one variant per protocol, V3-style variants
carry a UniswapV3Pool, the V2-style variant a MerchantMoeV2Pool. -/
inductive Pool where
  | UniswapV3 (pool : UniswapV3Pool)
  | MerchantMoe (pool : MerchantMoeV2Pool)
  | Agni (pool : UniswapV3Pool)

/-- PoolInfo::address for Pool (impl_pool_info macro). -/
def Pool.addressOf : Pool → Nat
  | .UniswapV3 p => p.address
  | .MerchantMoe p => p.address
  | .Agni p => p.address

/-- PoolInfo::token0_address for Pool. -/
def Pool.token0_address : Pool → Nat
  | .UniswapV3 p => p.token0
  | .MerchantMoe p => p.token0
  | .Agni p => p.token0

/-- PoolInfo::token1_address for Pool. -/
def Pool.token1_address : Pool → Nat
  | .UniswapV3 p => p.token1
  | .MerchantMoe p => p.token1
  | .Agni p => p.token1

/-- Pool::is_valid from pools/mod.rs: the pool address and both token
addresses differ from Address::ZERO. -/
def Pool.is_valid (p : Pool) : Bool :=
  decide (p.addressOf ≠ 0) && decide (p.token0_address ≠ 0) && decide (p.token1_address ≠ 0)

/-- PoolType::build_pool from pools/mod.rs: V3-style types decode a
UniswapV3Pool and wrap it through Pool::new_v3, the V2-style type
decodes a MerchantMoeV2Pool through Pool::new_v2; none models a decode
panic. -/
def PoolType.build_pool (pt : PoolType) (data : List DynSolValue) : Option Pool :=
  match pt with
  | .UniswapV3 => (uniswapV3PoolFromData data).map Pool.UniswapV3
  | .Agni => (uniswapV3PoolFromData data).map Pool.Agni
  | .MerchantMoe => (merchantMoeV2PoolFromData data).map Pool.MerchantMoe

/-- Decode-and-filter loop of populate_pool_data (pool_builder.rs):
build a pool from every decoded tuple and keep exactly those for which
is_valid holds; a decode panic aborts the whole batch (none). -/
def populate_pool_data (pt : PoolType) : List (List DynSolValue) → Option (List Pool)
  | [] => some []
  | d :: rest =>
    match pt.build_pool d with
    | none => none
    | some p =>
      match populate_pool_data pt rest with
      | none => none
      | some ps => some (if p.is_valid then p :: ps else ps)

/-! ### Retry loop of build_pools (pool_builder.rs) -/

/-- INITIAL_BACKOFF from pool_builder.rs (milliseconds). -/
def INITIAL_BACKOFF : Nat := 1000

/-- MAX_RETRIES from pool_builder.rs. -/
def MAX_RETRIES : Nat := 5

/-- Retry loop of build_pools, abstracted over remote behavior: attempts
gives the outcome of each populate_pool_data call (none = Err, some =
the decoded pools of that attempt) and jitters the sampled random jitter
of each retry sleep.  The loop counts retries upward from zero against
MAX_RETRIES and doubles the backoff; here the remaining retry budget
(MAX_RETRIES - retry_count) decreases instead, which is the same test
written as a structural recursion.  Returns the final result together
with the list of sleep durations, in order. -/
def build_pools_run (attempts : Nat → Option (List Pool)) (jitters : Nat → Nat) :
    Nat → Nat → Nat → List Pool × List Nat
  | i, backoff, remaining =>
    match attempts i with
    | some pools => (pools, [])
    | none =>
      match remaining with
      | 0 => ([], [])
      | r + 1 =>
        let rest := build_pools_run attempts jitters (i + 1) (backoff * 2) r
        (rest.1, (backoff + jitters i) :: rest.2)

/-- build_pools from pool_builder.rs: run the retry loop from attempt 0
with the initial backoff and the full retry budget.  The Rust function
always returns Ok, so the model returns a plain pool list. -/
def build_pools (attempts : Nat → Option (List Pool)) (jitters : Nat → Nat) :
    List Pool × List Nat :=
  build_pools_run attempts jitters 0 INITIAL_BACKOFF MAX_RETRIES

/-! ### Per-protocol round step of the orchestrator (pool_sync.rs) -/

/-- PoolCache entry as sync_pools uses it: the materialized pools, the
last confirmed block and the initial-sync flag. -/
structure PoolCache where
  pools : List Pool
  last_synced_block : Nat
  is_initial_sync : Bool

/-- Start-block resolution of sync_pools: the configured override when
one exists and the cache has not already passed it, otherwise one block
past the cache's last confirmed block. -/
def resolve_start_block (start_override : Option Nat) (last_synced_block : Nat) : Nat :=
  match start_override with
  | some start_block =>
    if last_synced_block < start_block then start_block else last_synced_block + 1
  | none => last_synced_block + 1

/-- Body of the per-protocol branch of a sync_pools round, abstracted
over the remote work: when the resolved start block does not exceed the
round's end block the protocol is scanned (the Boolean in the result),
the newly populated pools are appended to the cached ones, the last
confirmed block advances to the end block and the initial-sync flag
clears; otherwise the cache entry is untouched. -/
def sync_protocol_round (start_override : Option Nat) (end_block : Nat)
    (new_pools : List Pool) (cache : PoolCache) : PoolCache × Bool :=
  let start_block := resolve_start_block start_override cache.last_synced_block
  if start_block ≤ end_block then
    ({ pools := cache.pools ++ new_pools, last_synced_block := end_block,
       is_initial_sync := false }, true)
  else
    (cache, false)

/-! ### Characterization lemmas for the checked operations -/

theorem addU128_eq_some {a b c : Nat} :
    addU128 a b = some c ↔ a + b ≤ u128Max ∧ c = a + b := by
  unfold addU128
  split <;> simp_all <;> omega

theorem subU128_eq_some {a b c : Nat} :
    subU128 a b = some c ↔ b ≤ a ∧ c = a - b := by
  unfold subU128
  split <;> simp_all <;> omega

theorem addI128_eq_some {a b c : Int} :
    addI128 a b = some c ↔ (i128Min ≤ a + b ∧ a + b ≤ i128Max) ∧ c = a + b := by
  unfold addI128
  split <;> simp_all <;> omega

theorem subI128_eq_some {a b c : Int} :
    subI128 a b = some c ↔ (i128Min ≤ a - b ∧ a - b ≤ i128Max) ∧ c = a - b := by
  unfold subI128
  split <;> simp_all <;> omega

theorem negI128_eq_some {a c : Int} :
    negI128 a = some c ↔ a ≠ i128Min ∧ c = -a := by
  unfold negI128
  split <;> simp_all
  exact eq_comm

theorem divI32_eq_some {a b c : Int} :
    divI32 a b = some c ↔ ¬(b = 0 ∨ (a = i32Min ∧ b = -1)) ∧ c = Int.tdiv a b := by
  unfold divI32
  split <;> simp_all
  exact eq_comm

theorem setAt_same {α : Type} (m : Int → Option α) (k : Int) (v : Option α) :
    setAt m k v k = v := by
  simp [setAt]

theorem setAt_other {α : Type} (m : Int → Option α) (k k' : Int) (v : Option α)
    (h : k' ≠ k) : setAt m k v k' = m k' := by
  simp [setAt, h]

/-! ### Characterization of the state-machine steps -/

theorem update_tick_char {pool : UniswapV3Pool} {tick d : Int} {up : Bool}
    {p' : UniswapV3Pool} {f : Bool}
    (h : update_tick pool tick d up = some (p', f)) :
    ∃ gAfter net',
      ((d < 0 ∧ d ≠ i128Min ∧ (-d).toNat ≤ grossOf pool tick ∧
          gAfter = grossOf pool tick - (-d).toNat)
        ∨ (0 ≤ d ∧ grossOf pool tick + d.toNat ≤ u128Max ∧
          gAfter = grossOf pool tick + d.toNat)) ∧
      net' = (if up = true then netOf pool tick - d else netOf pool tick + d) ∧
      i128Min ≤ net' ∧ net' ≤ i128Max ∧
      f = ((decide (gAfter = 0)) != (decide (grossOf pool tick = 0))) ∧
      p' = { pool with ticks := setAt pool.ticks tick (some
              { liquidity_net := net',
                initialized := if grossOf pool tick = 0 then true else initOf pool tick,
                liquidity_gross := gAfter }) } := by
  simp only [update_tick] at h
  by_cases hd : d < 0
  · rw [if_pos hd] at h
    cases hneg : negI128 d with
    | none => simp only [hneg] at h; cases h
    | some m =>
    simp only [hneg] at h
    obtain ⟨hmin, hm⟩ := negI128_eq_some.mp hneg
    cases hsub : subU128 ((pool.ticks tick).getD TickInfo.empty).liquidity_gross m.toNat with
    | none => simp only [hsub] at h; cases h
    | some g =>
    simp only [hsub] at h
    obtain ⟨hle, hg⟩ := subU128_eq_some.mp hsub
    cases hnet : (if up = true then subI128 ((pool.ticks tick).getD TickInfo.empty).liquidity_net d
        else addI128 ((pool.ticks tick).getD TickInfo.empty).liquidity_net d) with
    | none => simp only [hnet] at h; cases h
    | some n =>
    simp only [hnet] at h
    simp only [Option.some.injEq, Prod.mk.injEq] at h
    obtain ⟨hp, hf⟩ := h
    have hnet2 : n = (if up = true then netOf pool tick - d else netOf pool tick + d) ∧
        i128Min ≤ n ∧ n ≤ i128Max := by
      rcases up with _ | _ <;>
        simp only [Bool.false_eq_true, if_true, if_false] at hnet ⊢
      · obtain ⟨hr, hv⟩ := addI128_eq_some.mp hnet
        exact ⟨by rw [hv]; rfl, by rw [hv]; exact hr.1, by rw [hv]; exact hr.2⟩
      · obtain ⟨hr, hv⟩ := subI128_eq_some.mp hnet
        exact ⟨by rw [hv]; rfl, by rw [hv]; exact hr.1, by rw [hv]; exact hr.2⟩
    rw [hm] at hle hg
    exact ⟨g, n, Or.inl ⟨hd, hmin, hle, hg⟩, hnet2.1, hnet2.2.1, hnet2.2.2, hf.symm, hp.symm⟩
  · rw [if_neg hd] at h
    cases hadd : addU128 ((pool.ticks tick).getD TickInfo.empty).liquidity_gross d.toNat with
    | none => simp only [hadd] at h; cases h
    | some g =>
    simp only [hadd] at h
    obtain ⟨hle, hg⟩ := addU128_eq_some.mp hadd
    cases hnet : (if up = true then subI128 ((pool.ticks tick).getD TickInfo.empty).liquidity_net d
        else addI128 ((pool.ticks tick).getD TickInfo.empty).liquidity_net d) with
    | none => simp only [hnet] at h; cases h
    | some n =>
    simp only [hnet] at h
    simp only [Option.some.injEq, Prod.mk.injEq] at h
    obtain ⟨hp, hf⟩ := h
    have hnet2 : n = (if up = true then netOf pool tick - d else netOf pool tick + d) ∧
        i128Min ≤ n ∧ n ≤ i128Max := by
      rcases up with _ | _ <;>
        simp only [Bool.false_eq_true, if_true, if_false] at hnet ⊢
      · obtain ⟨hr, hv⟩ := addI128_eq_some.mp hnet
        exact ⟨by rw [hv]; rfl, by rw [hv]; exact hr.1, by rw [hv]; exact hr.2⟩
      · obtain ⟨hr, hv⟩ := subI128_eq_some.mp hnet
        exact ⟨by rw [hv]; rfl, by rw [hv]; exact hr.1, by rw [hv]; exact hr.2⟩
    exact ⟨g, n, Or.inr ⟨by omega, hle, hg⟩, hnet2.1, hnet2.2.1, hnet2.2.2, hf.symm, hp.symm⟩

theorem flip_tick_char {pool : UniswapV3Pool} {tick sp : Int} {p' : UniswapV3Pool}
    (h : flip_tick pool tick sp = some p') :
    ∃ scaled, divI32 tick sp = some scaled ∧
      p'.ticks = pool.ticks ∧ p'.tick_spacing = pool.tick_spacing ∧
      p'.tick = pool.tick ∧ p'.liquidity = pool.liquidity ∧
      (∀ w b, bitmapBit p' w b =
        if w = (position scaled).1 ∧ b = (position scaled).2 then !(bitmapBit pool w b)
        else bitmapBit pool w b) := by
  simp only [flip_tick] at h
  cases hdiv : divI32 tick sp with
  | none => simp only [hdiv] at h; cases h
  | some scaled =>
  simp only [hdiv, Option.some.injEq] at h
  subst h
  refine ⟨scaled, rfl, rfl, rfl, rfl, rfl, ?_⟩
  intro w b
  by_cases hw : w = (position scaled).1
  · subst hw
    simp only [bitmapBit, setAt_same, if_pos rfl]
    cases hword : pool.tick_bitmap (position scaled).1 with
    | none =>
      simp only [Option.getD_none, Option.getD_some, Nat.zero_testBit, Bool.not_false]
      by_cases hb : b = (position scaled).2
      · subst hb; simp [Nat.testBit_two_pow]
      · simp [hb, Nat.testBit_two_pow, Ne.symm hb]
    | some w0 =>
      simp only [Option.getD_some, Nat.testBit_xor]
      by_cases hb : b = (position scaled).2
      · subst hb; simp [Nat.testBit_two_pow]
      · simp [hb, Nat.testBit_two_pow, Ne.symm hb]
  · simp only [bitmapBit, setAt_other _ _ _ _ hw, hw, false_and, if_false]

theorem update_position_inv {pool : UniswapV3Pool} {lo hi d : Int} {p' : UniswapV3Pool}
    (hd : d ≠ 0) (h : update_position pool lo hi d = some p') :
    ∃ p1 f1 p2 f2 p3 p4,
      update_tick pool lo d false = some (p1, f1) ∧
      update_tick p1 hi d true = some (p2, f2) ∧
      (if f1 = true then flip_tick p2 lo p2.tick_spacing = some p3 else p3 = p2) ∧
      (if f2 = true then flip_tick p3 hi p3.tick_spacing = some p4 else p4 = p3) ∧
      p' = (let p5 := if d < 0 ∧ f1 = true then { p4 with ticks := setAt p4.ticks lo none } else p4
            if d < 0 ∧ f2 = true then { p5 with ticks := setAt p5.ticks hi none } else p5) := by
  simp only [update_position, if_pos hd] at h
  cases h1 : update_tick pool lo d false with
  | none => simp only [h1] at h; cases h
  | some r1 =>
  obtain ⟨p1, f1⟩ := r1
  simp only [h1] at h
  cases h2 : update_tick p1 hi d true with
  | none => simp only [h2] at h; cases h
  | some r2 =>
  obtain ⟨p2, f2⟩ := r2
  simp only [h2] at h
  cases f1 with
  | false =>
    simp only [Bool.false_eq_true, if_false, and_false] at h
    cases f2 with
    | false =>
      simp only [Bool.false_eq_true, if_false, and_false, Option.some.injEq] at h
      refine ⟨p1, false, p2, false, p2, p2, rfl, h2, by simp, by simp, ?_⟩
      simp only [Bool.false_eq_true, eq_self_iff_true, and_false, and_true, if_false] at h ⊢
      exact h.symm
    | true =>
      simp only [if_true] at h
      cases h3 : flip_tick p2 hi p2.tick_spacing with
      | none => simp only [h3] at h; cases h
      | some p4 =>
      simp only [h3, Option.some.injEq] at h
      refine ⟨p1, false, p2, true, p2, p4, rfl, h2, by simp, by simp; exact h3, ?_⟩
      simp only [Bool.false_eq_true, eq_self_iff_true, and_false, and_true, if_false] at h ⊢
      exact h.symm
  | true =>
    simp only [if_true] at h
    cases h3 : flip_tick p2 lo p2.tick_spacing with
    | none => simp only [h3] at h; cases h
    | some p3 =>
    simp only [h3] at h
    cases f2 with
    | false =>
      simp only [Bool.false_eq_true, if_false, and_false, and_true, Option.some.injEq] at h
      refine ⟨p1, true, p2, false, p3, p3, rfl, h2, by simp; exact h3, by simp, ?_⟩
      simp only [Bool.false_eq_true, eq_self_iff_true, and_false, and_true, if_false] at h ⊢
      exact h.symm
    | true =>
      simp only [if_true, eq_self_iff_true, and_true] at h
      cases h4 : flip_tick p3 hi p3.tick_spacing with
      | none => simp only [h4] at h; cases h
      | some p4 =>
      simp only [h4, Option.some.injEq] at h
      refine ⟨p1, true, p2, true, p3, p4, rfl, h2, by simp; exact h3, by simp; exact h4, ?_⟩
      simp only [eq_self_iff_true, and_true] at h ⊢
      exact h.symm

theorem update_tick_fields {pool : UniswapV3Pool} {tick d : Int} {up : Bool}
    {p' : UniswapV3Pool} {f : Bool} (h : update_tick pool tick d up = some (p', f)) :
    p'.tick_bitmap = pool.tick_bitmap ∧ p'.tick_spacing = pool.tick_spacing ∧
    p'.tick = pool.tick ∧ p'.liquidity = pool.liquidity := by
  obtain ⟨g, n, _, _, _, _, _, hp⟩ := update_tick_char h
  subst hp
  exact ⟨rfl, rfl, rfl, rfl⟩

theorem update_position_fields {pool : UniswapV3Pool} {lo hi d : Int} {p' : UniswapV3Pool}
    (h : update_position pool lo hi d = some p') :
    p'.tick = pool.tick ∧ p'.liquidity = pool.liquidity ∧ p'.tick_spacing = pool.tick_spacing := by
  by_cases hd : d = 0
  · subst hd
    simp only [update_position, ne_eq, not_true_eq_false, if_false, Option.some.injEq] at h
    subst h
    exact ⟨rfl, rfl, rfl⟩
  · obtain ⟨p1, f1, p2, f2, p3, p4, h1, h2, h3, h4, hp⟩ := update_position_inv hd h
    obtain ⟨-, e1sp, e1t, e1l⟩ := update_tick_fields h1
    obtain ⟨-, e2sp, e2t, e2l⟩ := update_tick_fields h2
    have e3 : p3.tick = p2.tick ∧ p3.liquidity = p2.liquidity ∧ p3.tick_spacing = p2.tick_spacing := by
      by_cases hf : f1 = true
      · rw [if_pos hf] at h3
        obtain ⟨_, _, _, hsp, ht, hl, _⟩ := flip_tick_char h3
        exact ⟨ht, hl, hsp⟩
      · rw [if_neg hf] at h3
        subst h3
        exact ⟨rfl, rfl, rfl⟩
    have e4 : p4.tick = p3.tick ∧ p4.liquidity = p3.liquidity ∧ p4.tick_spacing = p3.tick_spacing := by
      by_cases hf : f2 = true
      · rw [if_pos hf] at h4
        obtain ⟨_, _, _, hsp, ht, hl, _⟩ := flip_tick_char h4
        exact ⟨ht, hl, hsp⟩
      · rw [if_neg hf] at h4
        subst h4
        exact ⟨rfl, rfl, rfl⟩
    have e5 : p'.tick = p4.tick ∧ p'.liquidity = p4.liquidity ∧ p'.tick_spacing = p4.tick_spacing := by
      rw [hp]
      split
      · split
        · exact ⟨rfl, rfl, rfl⟩
        · exact ⟨rfl, rfl, rfl⟩
      · split
        · exact ⟨rfl, rfl, rfl⟩
        · exact ⟨rfl, rfl, rfl⟩
    refine ⟨?_, ?_, ?_⟩
    · rw [e5.1, e4.1, e3.1, e2t, e1t]
    · rw [e5.2.1, e4.2.1, e3.2.1, e2l, e1l]
    · rw [e5.2.2, e4.2.2, e3.2.2, e2sp, e1sp]

theorem modify_position_inv {pool : UniswapV3Pool} {lo hi d : Int} {sync : Bool}
    {p' : UniswapV3Pool} (h : modify_position pool lo hi d sync = some p') :
    ∃ p1, update_position pool lo hi d = some p1 ∧
      p'.ticks = p1.ticks ∧ p'.tick_bitmap = p1.tick_bitmap ∧
      p'.tick = p1.tick ∧ p'.tick_spacing = p1.tick_spacing ∧
      ((d ≠ 0 ∧ sync = false ∧ lo ≤ p1.tick ∧ p1.tick < hi) →
        (p'.liquidity : Int) = (p1.liquidity : Int) + d) ∧
      (¬(d ≠ 0 ∧ sync = false ∧ lo ≤ p1.tick ∧ p1.tick < hi) →
        p'.liquidity = p1.liquidity) := by
  simp only [modify_position] at h
  cases h1 : update_position pool lo hi d with
  | none => simp only [h1] at h; cases h
  | some p1 =>
  simp only [h1] at h
  by_cases hc1 : d ≠ 0 ∧ sync = false
  · rw [if_pos hc1] at h
    by_cases hc2 : lo ≤ p1.tick ∧ p1.tick < hi
    · rw [if_pos hc2] at h
      by_cases hd : d < 0
      · rw [if_pos hd] at h
        cases hneg : negI128 d with
        | none => simp only [hneg] at h; cases h
        | some m =>
        simp only [hneg] at h
        obtain ⟨hmin, hm⟩ := negI128_eq_some.mp hneg
        cases hsub : subU128 p1.liquidity m.toNat with
        | none => simp only [hsub] at h; cases h
        | some liq =>
        simp only [hsub, Option.some.injEq] at h
        obtain ⟨hle, hliq⟩ := subU128_eq_some.mp hsub
        subst h
        refine ⟨p1, rfl, rfl, rfl, rfl, rfl, fun _ => ?_, fun hcon => absurd ⟨hc1.1, hc1.2, hc2⟩ hcon⟩
        show ((liq : Nat) : Int) = _
        rw [hliq]
        have hm0 : (m.toNat : Int) = -d := by
          rw [hm]
          exact Int.toNat_of_nonneg (by omega)
        omega
      · rw [if_neg hd] at h
        cases hadd : addU128 p1.liquidity d.toNat with
        | none => simp only [hadd] at h; cases h
        | some liq =>
        simp only [hadd, Option.some.injEq] at h
        obtain ⟨hle, hliq⟩ := addU128_eq_some.mp hadd
        subst h
        refine ⟨p1, rfl, rfl, rfl, rfl, rfl, fun _ => ?_, fun hcon => absurd ⟨hc1.1, hc1.2, hc2⟩ hcon⟩
        show ((liq : Nat) : Int) = _
        rw [hliq]
        have hd0 : (d.toNat : Int) = d := Int.toNat_of_nonneg (by omega)
        omega
    · rw [if_neg hc2] at h
      simp only [Option.some.injEq] at h
      subst h
      exact ⟨p1, rfl, rfl, rfl, rfl, rfl, fun hcon => absurd ⟨hcon.2.2.1, hcon.2.2.2⟩ hc2,
        fun _ => rfl⟩
  · rw [if_neg hc1] at h
    simp only [Option.some.injEq] at h
    subst h
    exact ⟨p1, rfl, rfl, rfl, rfl, rfl, fun hcon => absurd ⟨hcon.1, hcon.2.1⟩ hc1, fun _ => rfl⟩

/-! ### Claim C10: zero-amount mint and burn events are complete no-ops -/

/-- C10: a mint or burn event whose liquidity amount is zero is a complete
no-op: modify_position with delta 0 returns the input pool record
unchanged in every field; in particular no TickInfo entry is inserted and
no bitmap bit is toggled. -/
theorem zero_delta_mint_burn_noop (pool : UniswapV3Pool) (lo hi : Int) (sync : Bool) :
    modify_position pool lo hi 0 sync = some pool := by
  simp [modify_position, update_position]

/-! ### Claim C5: burn magnitude above gross liquidity is fatal -/

/-- C5: for every pool state and every burn (negative delta) whose
magnitude exceeds the lower boundary tick's current gross liquidity, the
mint/burn transition fails (none, the model of the Rust panic) instead of
producing a state: the u128 gross-liquidity subtraction is checked and is
never clamped or wrapped. -/
theorem burn_underflow_fatal (pool : UniswapV3Pool) (lo hi d : Int) (sync : Bool)
    (hd : d < 0) (hmag : grossOf pool lo < (-d).toNat) :
    modify_position pool lo hi d sync = none := by
  have hupd : update_tick pool lo d false = none := by
    simp only [update_tick, if_pos hd]
    cases hneg : negI128 d with
    | none => rfl
    | some m =>
      obtain ⟨hmin, hm⟩ := negI128_eq_some.mp hneg
      subst hm
      have hsub : subU128 ((pool.ticks lo).getD TickInfo.empty).liquidity_gross (-d).toNat = none := by
        simp only [subU128]
        rw [if_neg (by exact fun hcon => absurd hmag (by simp [grossOf]; omega))]
      simp only [hsub]
  have hd0 : d ≠ 0 := by omega
  simp [modify_position, update_position, if_pos hd0, hupd]

/-- Witness for C5 at a concrete input: burning 5 from the empty pool,
whose gross liquidity at tick 0 is 0, fails. -/
theorem burn_underflow_fatal_witness :
    ((-5 : Int) < 0 ∧ grossOf UniswapV3Pool.empty 0 < (-(-5 : Int)).toNat) ∧
    modify_position UniswapV3Pool.empty 0 10 (-5) false = none :=
  ⟨⟨by decide, by decide⟩, burn_underflow_fatal UniswapV3Pool.empty 0 10 (-5) false
    (by decide) (by decide)⟩

/-! ### Claim C4: aggregate liquidity moves exactly under the stated guard -/

/-- C4: whenever modify_position produces a state, the pool's aggregate
liquidity has moved by exactly the signed delta when the delta is
nonzero, this is not the initial sync and the current tick lies in
[lower, upper); in every other case it is unchanged. -/
theorem modify_position_liquidity_change {pool : UniswapV3Pool} {lo hi d : Int}
    {sync : Bool} {p' : UniswapV3Pool} (h : modify_position pool lo hi d sync = some p') :
    (p'.liquidity : Int) =
      if d ≠ 0 ∧ sync = false ∧ lo ≤ pool.tick ∧ pool.tick < hi
      then (pool.liquidity : Int) + d else (pool.liquidity : Int) := by
  obtain ⟨p1, h1, -, -, -, -, hyes, hno⟩ := modify_position_inv h
  obtain ⟨ht, hliq, -⟩ := update_position_fields h1
  rw [ht] at hyes hno
  by_cases hc : d ≠ 0 ∧ sync = false ∧ lo ≤ pool.tick ∧ pool.tick < hi
  · rw [if_pos hc, hyes hc, hliq]
  · rw [if_neg hc, hno hc, hliq]

/-- Concrete pool for the C4 witness: empty state with aggregate
liquidity 100 and current tick 0. -/
def c4pool : UniswapV3Pool :=
  { UniswapV3Pool.empty with liquidity := 100, tick_spacing := 10 }

/-- Result of the C4 witness mint. -/
def c4post : UniswapV3Pool :=
  (modify_position c4pool (-10) 10 30 false).getD UniswapV3Pool.empty

set_option maxRecDepth 4000 in
/-- Witness for C4 at a concrete input: minting 30 over [-10, 10) with the
current tick 0 inside the range, outside initial sync, raises the
aggregate liquidity from 100 to 130. -/
theorem modify_position_liquidity_change_witness :
    modify_position c4pool (-10) 10 30 false = some c4post ∧
    (c4post.liquidity : Int) =
      if (30 : Int) ≠ 0 ∧ false = false ∧ -10 ≤ c4pool.tick ∧ c4pool.tick < 10
      then (c4pool.liquidity : Int) + 30 else (c4pool.liquidity : Int) :=
  ⟨rfl, modify_position_liquidity_change (show modify_position c4pool (-10) 10 30 false
    = some c4post from rfl)⟩

/-! ### Claim C3: bitmap addressing and the scaled-tick quotient -/

/-- C3 counterexample: the claim says the decoded pair reproduces
floor(t / s) for every tick, including negative ones.  At t = -5,
s = 10 the code computes the Rust truncated quotient 0, so the decoded
value is 0, while floor(-5 / 10) = -1. -/
theorem bitmap_addressing_not_floor :
    (divI32 (-5) 10).map (fun sc => (position sc).1 * 256 + ((position sc).2 : Int))
      = some 0 ∧
    Int.fdiv (-5) 10 = -1 := by
  constructor
  · decide
  · decide

/-- C3 amended: the (word, bit) pair computed when toggling the bit of
tick t at spacing s decodes, as word * 256 + bit, to the truncated-toward-
zero quotient t / s (Rust i32 division), not to the floor quotient; the
two agree whenever s divides t or the quotient is nonnegative. -/
theorem bitmap_addressing_decodes_trunc_quotient {t s scaled : Int}
    (h : divI32 t s = some scaled) :
    (position scaled).1 * 256 + ((position scaled).2 : Int) = Int.tdiv t s ∧
    (position scaled).2 < 256 := by
  obtain ⟨-, hsc⟩ := divI32_eq_some.mp h
  subst hsc
  constructor
  · show Int.tdiv t s / 256 * 256 + ((Int.tdiv t s % 256).toNat : Int) = Int.tdiv t s
    have h1 : ((Int.tdiv t s % 256).toNat : Int) = Int.tdiv t s % 256 :=
      Int.toNat_of_nonneg (Int.emod_nonneg _ (by norm_num))
    rw [h1]
    omega
  · show (Int.tdiv t s % 256).toNat < 256
    have h2 := Int.emod_lt_of_pos (Int.tdiv t s) (show (0 : Int) < 256 by norm_num)
    have h3 := Int.emod_nonneg (Int.tdiv t s) (show (256 : Int) ≠ 0 by norm_num)
    omega

/-- Witness for the amended C3 at the concrete input t = -5, s = 10
(scaled tick 0). -/
theorem bitmap_addressing_decodes_trunc_quotient_witness :
    divI32 (-5) 10 = some 0 ∧
    ((position 0).1 * 256 + ((position 0).2 : Int) = Int.tdiv (-5) 10 ∧
      (position 0).2 < 256) :=
  ⟨by decide, bitmap_addressing_decodes_trunc_quotient (by decide)⟩

/-! ### Claim C6: defensive numeric decoding of bulk-read tuples -/

/-- C6 counterexample: the claim says a decimals field wider than a byte
yields the default 18 in both layouts, but the constant-product decode
narrows decimals with the panicking Uint::to conversion: a v2 tuple whose
token0 decimals value is 256 fails to decode instead of producing a
record. -/
theorem v2_decode_wide_decimals_panics :
    merchantMoeV2PoolFromData
      [DynSolValue.address 1, DynSolValue.address 2, DynSolValue.address 3,
       DynSolValue.uint 256, DynSolValue.uint 9, DynSolValue.uint 4, DynSolValue.uint 5]
      = none := rfl

/-- C6 amended: for the concentrated-liquidity layout the numeric
decoding never fails and applies the defaults exactly as claimed
(decimals wider than a byte give 18, a fee wider than 32 bits gives 3000,
a tick-like int outside i32 gives 0, an overwide liquidity gives 0); for
the constant-product layout the decode succeeds with the literal field
values only when both decimals fit in a byte, and a decimals value wider
than a byte aborts the decode of the batch instead of defaulting. -/
theorem bulk_decode_numeric_defaults (a t0 t1 d0 d1 liq sqp fee : Nat) (tk tsp : Int) :
    (uniswapV3PoolFromData
        [DynSolValue.address a, DynSolValue.address t0, DynSolValue.uint d0,
         DynSolValue.address t1, DynSolValue.uint d1, DynSolValue.uint liq,
         DynSolValue.uint sqp, DynSolValue.int tk, DynSolValue.int tsp,
         DynSolValue.uint fee]
      = some { UniswapV3Pool.empty with
                 address := a, token0 := t0,
                 token0_decimals := if 255 < d0 then 18 else d0,
                 token1 := t1,
                 token1_decimals := if 255 < d1 then 18 else d1,
                 liquidity := if liq ≤ u128Max then liq else 0,
                 sqrt_price := sqp,
                 tick := if i32Min ≤ tk ∧ tk ≤ i32Max then tk else 0,
                 tick_spacing := if i32Min ≤ tsp ∧ tsp ≤ i32Max then tsp else 0,
                 fee := if 2 ^ 32 - 1 < fee then 3000 else fee }) ∧
    (d0 ≤ 255 → d1 ≤ 255 →
      merchantMoeV2PoolFromData
        [DynSolValue.address a, DynSolValue.address t0, DynSolValue.address t1,
         DynSolValue.uint d0, DynSolValue.uint d1, DynSolValue.uint liq,
         DynSolValue.uint sqp]
      = some { MerchantMoeV2Pool.empty with
                 address := a, token0 := t0, token1 := t1,
                 token0_decimals := d0, token1_decimals := d1,
                 token0_reserves := liq, token1_reserves := sqp }) ∧
    (255 < d0 →
      merchantMoeV2PoolFromData
        [DynSolValue.address a, DynSolValue.address t0, DynSolValue.address t1,
         DynSolValue.uint d0, DynSolValue.uint d1, DynSolValue.uint liq,
         DynSolValue.uint sqp] = none) := by
  refine ⟨rfl, fun h0 h1 => ?_, fun h0 => ?_⟩
  · simp only [merchantMoeV2PoolFromData, uintToU8, List.get?, Option.some_bind,
      DynSolValue.as_address, DynSolValue.as_uint, if_pos h0, if_pos h1]
  · simp only [merchantMoeV2PoolFromData, uintToU8, List.get?, Option.some_bind,
      DynSolValue.as_address, DynSolValue.as_uint, if_neg (by omega : ¬ d0 ≤ 255)]

/-- Witness for C6 at concrete field values exercising every default:
decimals 300 gives 18, fee 2 to the 40th gives 3000, an out-of-range tick
gives 0 in the v3 layout; the v2 layout accepts byte-sized decimals and
rejects wide ones. -/
theorem bulk_decode_numeric_defaults_witness :
    (uniswapV3PoolFromData
        [DynSolValue.address 1, DynSolValue.address 2, DynSolValue.uint 300,
         DynSolValue.address 3, DynSolValue.uint 7, DynSolValue.uint 11,
         DynSolValue.uint 13, DynSolValue.int (2 ^ 40), DynSolValue.int 10,
         DynSolValue.uint (2 ^ 40)]).map
      (fun p => (p.token0_decimals, p.token1_decimals, p.fee, p.tick, p.liquidity))
      = some (18, 7, 3000, 0, 11) ∧
    (merchantMoeV2PoolFromData
        [DynSolValue.address 1, DynSolValue.address 2, DynSolValue.address 3,
         DynSolValue.uint 7, DynSolValue.uint 7, DynSolValue.uint 11,
         DynSolValue.uint 13]).map (fun p => p.token0_decimals) = some 7 ∧
    merchantMoeV2PoolFromData
        [DynSolValue.address 1, DynSolValue.address 2, DynSolValue.address 3,
         DynSolValue.uint 300, DynSolValue.uint 7, DynSolValue.uint 11,
         DynSolValue.uint 13] = none := by
  have hA := bulk_decode_numeric_defaults 1 2 3 300 7 11 13 (2 ^ 40) (2 ^ 40) 10
  have hB := bulk_decode_numeric_defaults 1 2 3 7 7 11 13 0 10 500
  exact ⟨by rw [hA.1]; rfl, by rw [hB.2.1 (by norm_num) (by norm_num)]; rfl,
    hA.2.2 (by norm_num)⟩

/-! ### Claim C7: retry loop of the batch populator -/

/-- C7: the build_pools retry loop makes at most 1 + MAX_RETRIES
attempts; when every attempt fails it returns the empty pool list (a
successful result, never an error) after sleeping the exponentially
doubled backoffs 1000, 2000, 4000, 8000, 16000 ms each perturbed by its
sampled jitter; and when some attempt within the budget succeeds, the
pools decoded by that attempt are returned. -/
theorem build_pools_retry_behavior (attempts : Nat → Option (List Pool))
    (jitters : Nat → Nat) :
    ((∀ i, i ≤ MAX_RETRIES → attempts i = none) →
      build_pools attempts jitters =
        ([], [1000 + jitters 0, 2000 + jitters 1, 4000 + jitters 2,
              8000 + jitters 3, 16000 + jitters 4])) ∧
    (∀ k ps, k ≤ MAX_RETRIES → (∀ i, i < k → attempts i = none) →
      attempts k = some ps → (build_pools attempts jitters).1 = ps) := by
  constructor
  · intro hall
    simp [build_pools, build_pools_run, hall 0 (by decide), hall 1 (by decide),
      hall 2 (by decide), hall 3 (by decide), hall 4 (by decide),
      hall 5 (by decide), INITIAL_BACKOFF, MAX_RETRIES]
  · intro k ps hk hfail hsucc
    have hk5 : k ≤ 5 := hk
    interval_cases k
    · simp [build_pools, build_pools_run, hsucc, MAX_RETRIES, INITIAL_BACKOFF]
    · simp [build_pools, build_pools_run, hsucc, hfail 0 (by norm_num),
        MAX_RETRIES, INITIAL_BACKOFF]
    · simp [build_pools, build_pools_run, hsucc, hfail 0 (by norm_num),
        hfail 1 (by norm_num), MAX_RETRIES, INITIAL_BACKOFF]
    · simp [build_pools, build_pools_run, hsucc, hfail 0 (by norm_num),
        hfail 1 (by norm_num), hfail 2 (by norm_num), MAX_RETRIES, INITIAL_BACKOFF]
    · simp [build_pools, build_pools_run, hsucc, hfail 0 (by norm_num),
        hfail 1 (by norm_num), hfail 2 (by norm_num), hfail 3 (by norm_num),
        MAX_RETRIES, INITIAL_BACKOFF]
    · simp [build_pools, build_pools_run, hsucc, hfail 0 (by norm_num),
        hfail 1 (by norm_num), hfail 2 (by norm_num), hfail 3 (by norm_num),
        hfail 4 (by norm_num), MAX_RETRIES, INITIAL_BACKOFF]

/-- Concrete attempt sequence for the C7 witness: the first two calls
fail, the third succeeds with one pool. -/
def c7attempts : Nat → Option (List Pool) :=
  fun i => if i = 2 then some [Pool.MerchantMoe MerchantMoeV2Pool.empty] else none

/-- Witness for C7 at concrete inputs: with every attempt failing the
loop returns no pools after the five doubled, jittered sleeps; with
success at the third attempt its pools are returned. -/
theorem build_pools_retry_behavior_witness :
    build_pools (fun _ => none) (fun _ => 7) =
      ([], [1007, 2007, 4007, 8007, 16007]) ∧
    (build_pools c7attempts (fun _ => 7)).1 = [Pool.MerchantMoe MerchantMoeV2Pool.empty] :=
  ⟨(build_pools_retry_behavior (fun _ => none) (fun _ => 7)).1 (fun _ _ => rfl),
   (build_pools_retry_behavior c7attempts (fun _ => 7)).2 2
     [Pool.MerchantMoe MerchantMoeV2Pool.empty] (by decide)
     (fun i hi => by simp only [c7attempts, if_neg (by omega : ¬ i = 2)]) rfl⟩

/-! ### Claim C8: the populator keeps exactly the valid records -/

theorem populate_pool_data_core {pt : PoolType} {tuples : List (List DynSolValue)}
    {pools : List Pool} (h : populate_pool_data pt tuples = some pools) :
    pools.length ≤ tuples.length ∧
    (∀ p, p ∈ pools → p.is_valid = true) ∧
    (∀ p d, d ∈ tuples → pt.build_pool d = some p → p.is_valid = true → p ∈ pools) := by
  induction tuples generalizing pools with
  | nil =>
    simp only [populate_pool_data, Option.some.injEq] at h
    subst h
    exact ⟨by simp, by simp, by simp⟩
  | cons d rest ih =>
    simp only [populate_pool_data] at h
    cases hb : pt.build_pool d with
    | none => simp only [hb] at h; cases h
    | some p =>
    simp only [hb] at h
    cases hr : populate_pool_data pt rest with
    | none => simp only [hr] at h; cases h
    | some ps =>
    simp only [hr, Option.some.injEq] at h
    obtain ⟨hlen, hvalid, hcomplete⟩ := ih hr
    subst h
    refine ⟨?_, ?_, ?_⟩
    · by_cases hv : p.is_valid <;> simp [hv] <;> omega
    · intro q hq
      by_cases hv : p.is_valid
      · rw [if_pos hv] at hq
        rcases List.mem_cons.mp hq with hq | hq
        · subst hq; exact hv
        · exact hvalid q hq
      · rw [if_neg hv] at hq
        exact hvalid q hq
    · intro q d' hd' hbq hq
      rcases List.mem_cons.mp hd' with hd' | hd'
      · subst hd'
        rw [hb] at hbq
        injection hbq with hbq
        subst hbq
        rw [if_pos hq]
        exact List.mem_cons_self _ _
      · have hmem := hcomplete q d' hd' hbq hq
        by_cases hv : p.is_valid
        · rw [if_pos hv]; exact List.mem_cons_of_mem _ hmem
        · rw [if_neg hv]; exact hmem

/-- C8: for every decoded batch whose tuple list matches the input
address list in length, the populator keeps a record if and only if its
pool address and both token addresses are nonzero; hence the output is
never longer than the address list and contains no zero-address record. -/
theorem populate_keeps_exactly_valid {pt : PoolType} {tuples : List (List DynSolValue)}
    {addrs : List Nat} {pools : List Pool}
    (hlen : tuples.length = addrs.length)
    (h : populate_pool_data pt tuples = some pools) :
    pools.length ≤ addrs.length ∧
    (∀ p, p ∈ pools →
      p.addressOf ≠ 0 ∧ p.token0_address ≠ 0 ∧ p.token1_address ≠ 0) ∧
    (∀ p d, d ∈ tuples → pt.build_pool d = some p →
      (p ∈ pools ↔ (p.addressOf ≠ 0 ∧ p.token0_address ≠ 0 ∧ p.token1_address ≠ 0))) := by
  obtain ⟨hl, hvalid, hcomplete⟩ := populate_pool_data_core h
  have hv : ∀ p : Pool, p.is_valid = true ↔
      (p.addressOf ≠ 0 ∧ p.token0_address ≠ 0 ∧ p.token1_address ≠ 0) := by
    intro p
    simp [Pool.is_valid, and_assoc]
  refine ⟨hlen ▸ hl, fun p hp => (hv p).mp (hvalid p hp), fun p d hd hb => ?_⟩
  constructor
  · intro hp
    exact (hv p).mp (hvalid p hp)
  · intro hval
    exact hcomplete p d hd hb ((hv p).mpr hval)

/-- Concrete decoded batch for the C8 witness: one valid v2 tuple and one
whose token0 address is zero. -/
def c8tuples : List (List DynSolValue) :=
  [[DynSolValue.address 5, DynSolValue.address 6, DynSolValue.address 7,
    DynSolValue.uint 18, DynSolValue.uint 18, DynSolValue.uint 1, DynSolValue.uint 2],
   [DynSolValue.address 8, DynSolValue.address 0, DynSolValue.address 9,
    DynSolValue.uint 18, DynSolValue.uint 18, DynSolValue.uint 1, DynSolValue.uint 2]]

/-- Pools the populator keeps from c8tuples. -/
def c8result : List Pool :=
  (populate_pool_data PoolType.MerchantMoe c8tuples).getD []

/-- Witness for C8 at the concrete batch: two input tuples for two
addresses, and the populator returns at most two pools (here exactly the
single valid one). -/
theorem populate_keeps_exactly_valid_witness :
    populate_pool_data PoolType.MerchantMoe c8tuples = some c8result ∧
    c8result.length ≤ [(10 : Nat), 20].length ∧
    c8result.length = 1 :=
  ⟨rfl,
   (populate_keeps_exactly_valid
     (show c8tuples.length = [(10 : Nat), 20].length from rfl)
     (show populate_pool_data PoolType.MerchantMoe c8tuples = some c8result from rfl)).1,
   rfl⟩

/-! ### Claim C9: orchestrator start-block resolution and advancement -/

/-- C9: in a sync round the start block of a protocol is the configured
override exactly when one is configured and the cache's last confirmed
block is still below it, and the cache's last confirmed block plus one
otherwise; the protocol is scanned if and only if the start block does
not exceed the round's end block, in which case its last confirmed block
advances to the end block, the initial-sync flag clears and the new
pools are appended; otherwise its cache entry is untouched. -/
theorem sync_round_start_block_and_advance (ov : Option Nat) (e : Nat)
    (np : List Pool) (c : PoolCache) :
    (∀ sb, ov = some sb → c.last_synced_block < sb →
      resolve_start_block ov c.last_synced_block = sb) ∧
    (∀ sb, ov = some sb → ¬ c.last_synced_block < sb →
      resolve_start_block ov c.last_synced_block = c.last_synced_block + 1) ∧
    (ov = none → resolve_start_block ov c.last_synced_block = c.last_synced_block + 1) ∧
    ((sync_protocol_round ov e np c).2 = true ↔
      resolve_start_block ov c.last_synced_block ≤ e) ∧
    ((sync_protocol_round ov e np c).2 = true →
      (sync_protocol_round ov e np c).1.last_synced_block = e ∧
      (sync_protocol_round ov e np c).1.is_initial_sync = false ∧
      (sync_protocol_round ov e np c).1.pools = c.pools ++ np) ∧
    ((sync_protocol_round ov e np c).2 = false → (sync_protocol_round ov e np c).1 = c) := by
  refine ⟨?_, ?_, ?_, ?_, ?_, ?_⟩
  · intro sb hov hlt
    subst hov
    simp [resolve_start_block, if_pos hlt]
  · intro sb hov hge
    subst hov
    simp [resolve_start_block, if_neg hge]
  · intro hov
    subst hov
    simp [resolve_start_block]
  · by_cases hle : resolve_start_block ov c.last_synced_block ≤ e
    · simp [sync_protocol_round, if_pos hle, hle]
    · simp [sync_protocol_round, if_neg hle, hle]
  · intro hsc
    by_cases hle : resolve_start_block ov c.last_synced_block ≤ e
    · simp [sync_protocol_round, if_pos hle]
    · simp [sync_protocol_round, if_neg hle] at hsc
  · intro hsc
    by_cases hle : resolve_start_block ov c.last_synced_block ≤ e
    · simp [sync_protocol_round, if_pos hle] at hsc
    · simp [sync_protocol_round, if_neg hle]

/-- Witness for C9 at a concrete round: override 50, cached last block
10, end block 100: the start block is the override, the protocol is
scanned and its cache advances to block 100 with the initial-sync flag
cleared. -/
theorem sync_round_start_block_and_advance_witness :
    resolve_start_block (some 50) 10 = 50 ∧
    (sync_protocol_round (some 50) 100 [] ⟨[], 10, true⟩).2 = true ∧
    (sync_protocol_round (some 50) 100 [] ⟨[], 10, true⟩).1.last_synced_block = 100 ∧
    (sync_protocol_round (some 50) 100 [] ⟨[], 10, true⟩).1.is_initial_sync = false := by
  have h := sync_round_start_block_and_advance (some 50) 100 [] ⟨[], 10, true⟩
  have hs : (sync_protocol_round (some 50) 100 [] ⟨[], 10, true⟩).2 = true := by
    refine (h.2.2.2.1).mpr ?_
    rw [h.1 50 rfl (by norm_num)]
    norm_num
  exact ⟨h.1 50 rfl (by norm_num), hs, (h.2.2.2.2.1 hs).1, (h.2.2.2.2.1 hs).2.1⟩

/-! ### Pointwise effect of update_position -/

/-- Decoding the (word, bit) pair of position: word * 256 + bit recovers
the scaled tick and the bit index is below 256. -/
theorem position_decode (k : Int) :
    (position k).1 * 256 + ((position k).2 : Int) = k ∧ (position k).2 < 256 := by
  constructor
  · show k / 256 * 256 + ((k % 256).toNat : Int) = k
    have h1 : ((k % 256).toNat : Int) = k % 256 :=
      Int.toNat_of_nonneg (Int.emod_nonneg _ (by norm_num))
    rw [h1]
    omega
  · show (k % 256).toNat < 256
    have h2 := Int.emod_lt_of_pos k (show (0 : Int) < 256 by norm_num)
    have h3 := Int.emod_nonneg k (show (256 : Int) ≠ 0 by norm_num)
    omega

/-- position is injective on scaled ticks. -/
theorem position_injective {k k' : Int} (h : position k = position k') : k = k' := by
  have h1 := (position_decode k).1
  have h2 := (position_decode k').1
  rw [h] at h1
  omega

/-- Whether toggling tick t at spacing sp addresses bitmap bit (w, b). -/
def tickBitHit (sp t w : Int) (b : Nat) : Bool :=
  decide ((divI32 t sp).map position = some (w, b))

/-- Pointwise description of a successful update_position with nonzero
delta: the two boundary update_tick calls it made, preservation of every
scalar field and of every other tick, the removal behavior at the two
boundaries, and every bitmap bit as the original bit xor-ed with the two
conditional boundary toggles. -/
theorem update_position_effect {pool : UniswapV3Pool} {lo hi d : Int} {p' : UniswapV3Pool}
    (hd : d ≠ 0) (h : update_position pool lo hi d = some p') :
    ∃ p1 f1 p2 f2,
      update_tick pool lo d false = some (p1, f1) ∧
      update_tick p1 hi d true = some (p2, f2) ∧
      p'.tick_spacing = pool.tick_spacing ∧ p'.tick = pool.tick ∧
      p'.liquidity = pool.liquidity ∧
      (∀ t, t ≠ lo → t ≠ hi → p'.ticks t = pool.ticks t) ∧
      (lo ≠ hi → p'.ticks lo = if d < 0 ∧ f1 = true then none else p1.ticks lo) ∧
      (p'.ticks hi = if d < 0 ∧ f2 = true then none else p2.ticks hi) ∧
      (∀ w b, bitmapBit p' w b =
        Bool.xor (Bool.xor (bitmapBit pool w b) (f1 && tickBitHit pool.tick_spacing lo w b))
          (f2 && tickBitHit pool.tick_spacing hi w b)) := by
  obtain ⟨p1, f1, p2, f2, p3, p4, h1, h2, h3, h4, hp⟩ := update_position_inv hd h
  obtain ⟨gA1, net1, hgross1, hnet1, -, -, hf1, hp1⟩ := update_tick_char h1
  obtain ⟨gA2, net2, hgross2, hnet2, -, -, hf2, hp2⟩ := update_tick_char h2
  have hsp1 : p1.tick_spacing = pool.tick_spacing := by rw [hp1]
  have hsp2 : p2.tick_spacing = pool.tick_spacing := by rw [hp2, hsp1]
  have hbm1 : p1.tick_bitmap = pool.tick_bitmap := by rw [hp1]
  have hbm2 : p2.tick_bitmap = p1.tick_bitmap := by rw [hp2]
  have ht1 : p1.ticks = setAt pool.ticks lo (some
      { liquidity_net := net1,
        initialized := if grossOf pool lo = 0 then true else initOf pool lo,
        liquidity_gross := gA1 }) := by rw [hp1]
  have ht2 : p2.ticks = setAt p1.ticks hi (some
      { liquidity_net := net2,
        initialized := if grossOf p1 hi = 0 then true else initOf p1 hi,
        liquidity_gross := gA2 }) := by rw [hp2]
  -- step 3: the conditional lower flip
  have e3 : p3.ticks = p2.ticks ∧ p3.tick_spacing = p2.tick_spacing ∧
      (∀ w b, bitmapBit p3 w b =
        Bool.xor (bitmapBit p2 w b) (f1 && tickBitHit pool.tick_spacing lo w b)) := by
    cases f1 with
    | false =>
      rw [if_neg (by simp)] at h3
      subst h3
      exact ⟨rfl, rfl, fun w b => by simp⟩
    | true =>
      rw [if_pos rfl] at h3
      obtain ⟨sl, hdivl, htk3, hspc3, -, -, hb3⟩ := flip_tick_char h3
      rw [hsp2] at hdivl
      refine ⟨htk3, hspc3, fun w b => ?_⟩
      rw [hb3 w b]
      have hhit : tickBitHit pool.tick_spacing lo w b = decide (w = (position sl).1 ∧ b = (position sl).2) := by
        simp only [tickBitHit, hdivl, Option.map_some, Option.map_some', Option.some.injEq]
        rw [decide_eq_decide]
        constructor
        · intro hx
          rw [hx]
          exact ⟨rfl, rfl⟩
        · intro hx
          rw [hx.1, hx.2]
      rw [hhit]
      by_cases hcond : w = (position sl).1 ∧ b = (position sl).2
      · simp [hcond]
      · simp [hcond]
  -- step 4: the conditional upper flip
  have e4 : p4.ticks = p3.ticks ∧ p4.tick_spacing = p3.tick_spacing ∧
      (∀ w b, bitmapBit p4 w b =
        Bool.xor (bitmapBit p3 w b) (f2 && tickBitHit pool.tick_spacing hi w b)) := by
    cases f2 with
    | false =>
      rw [if_neg (by simp)] at h4
      subst h4
      exact ⟨rfl, rfl, fun w b => by simp⟩
    | true =>
      rw [if_pos rfl] at h4
      obtain ⟨sh, hdivh, htk4, hspc4, -, -, hb4⟩ := flip_tick_char h4
      rw [e3.2.1, hsp2] at hdivh
      refine ⟨htk4, hspc4, fun w b => ?_⟩
      rw [hb4 w b]
      have hhit : tickBitHit pool.tick_spacing hi w b = decide (w = (position sh).1 ∧ b = (position sh).2) := by
        simp only [tickBitHit, hdivh, Option.map_some, Option.map_some', Option.some.injEq]
        rw [decide_eq_decide]
        constructor
        · intro hx
          rw [hx]
          exact ⟨rfl, rfl⟩
        · intro hx
          rw [hx.1, hx.2]
      rw [hhit]
      by_cases hcond : w = (position sh).1 ∧ b = (position sh).2
      · simp [hcond]
      · simp [hcond]
  -- the final record only edits ticks, so bitmap and scalars pass through
  have hpbm : p'.tick_bitmap = p4.tick_bitmap := by
    rw [hp]
    split
    · split
      · rfl
      · rfl
    · split
      · rfl
      · rfl
  have hpticks : p'.ticks =
      (let m5 := if d < 0 ∧ f1 = true then setAt p4.ticks lo none else p4.ticks
       if d < 0 ∧ f2 = true then setAt m5 hi none else m5) := by
    rw [hp]
    split
    · split
      · rfl
      · rfl
    · split
      · rfl
      · rfl
  obtain ⟨hfl, -, -⟩ := update_position_fields h
  refine ⟨p1, f1, p2, f2, h1, h2, (update_position_fields h).2.2, hfl,
    (update_position_fields h).2.1, ?_, ?_, ?_, ?_⟩
  · intro t htlo hthi
    rw [hpticks]
    show (if d < 0 ∧ f2 = true then setAt _ hi none else _) t = pool.ticks t
    have hother : ∀ m : Int → Option TickInfo,
        (if d < 0 ∧ f1 = true then setAt m lo none else m) t = m t := by
      intro m
      split
      · exact setAt_other _ _ _ _ htlo
      · rfl
    split
    · rw [setAt_other _ _ _ _ hthi, hother, e4.1, e3.1, ht2, setAt_other _ _ _ _ hthi,
        ht1, setAt_other _ _ _ _ htlo]
    · rw [hother, e4.1, e3.1, ht2, setAt_other _ _ _ _ hthi, ht1, setAt_other _ _ _ _ htlo]
  · intro hlh
    rw [hpticks]
    show (if d < 0 ∧ f2 = true then setAt _ hi none else _) lo = _
    have hstep : (if d < 0 ∧ f1 = true then setAt p4.ticks lo none else p4.ticks) lo =
        if d < 0 ∧ f1 = true then none else p4.ticks lo := by
      split
      · exact setAt_same _ _ _
      · rfl
    have hp4lo : p4.ticks lo = p1.ticks lo := by
      rw [e4.1, e3.1, ht2, setAt_other _ _ _ _ hlh]
    split
    · rw [setAt_other _ _ _ _ hlh, hstep, hp4lo]
    · rw [hstep, hp4lo]
  · -- the upper boundary: uniform formula, also when lo = hi
    rw [hpticks]
    show (if d < 0 ∧ f2 = true then setAt _ hi none else _) hi = _
    by_cases hc2 : d < 0 ∧ f2 = true
    · rw [if_pos hc2, if_pos hc2, setAt_same]
    · rw [if_neg hc2, if_neg hc2]
      by_cases hc1 : d < 0 ∧ f1 = true
      · -- a lower-boundary removal can only coexist with hi ≠ lo
        have hlh : lo ≠ hi := by
          intro hcon
          subst hcon
          -- lo = hi and d < 0: the second update_tick subtracted a positive
          -- magnitude from gA1 and the first one from grossOf pool lo, so
          -- both are nonzero and the lower boundary cannot have flipped
          rcases hgross2 with ⟨hdneg, hdmin, hmle, -⟩ | ⟨hdpos, -, -⟩
          · have hg1 : grossOf p1 lo = gA1 := by
              simp [grossOf, ht1, setAt_same]
            rw [hg1] at hmle
            have hmpos : 1 ≤ (-d).toNat := by
              have h1d : 1 ≤ -d := by omega
              omega
            rcases hgross1 with ⟨-, -, hmle1, -⟩ | ⟨hge, -, -⟩
            · have hgA1ne : gA1 ≠ 0 := by omega
              have hg0ne : grossOf pool lo ≠ 0 := by omega
              rw [hc1.2] at hf1
              simp [hgA1ne, hg0ne] at hf1
            · omega
          · exact absurd hc1.1 (by omega)
        rw [if_pos hc1, setAt_other _ _ _ _ (Ne.symm hlh), e4.1, e3.1, ht2, setAt_same]
      · rw [if_neg hc1, e4.1, e3.1, ht2, setAt_same]
  · intro w b
    have hb : bitmapBit p' w b = bitmapBit p4 w b := by
      simp [bitmapBit, hpbm]
    rw [hb, e4.2.2 w b, e3.2.2 w b]
    have hbp2 : bitmapBit p2 w b = bitmapBit pool w b := by
      simp [bitmapBit, hbm2, hbm1]
    rw [hbp2]

/-! ### Claim C2: the tick-map / bitmap invariant -/

/-- Bitmap bit addressed for a tick, exactly as flip_tick computes it
(word and bit of the truncated quotient tick / spacing); reads false on
the inputs where the division itself would panic. -/
def bitForTick (pool : UniswapV3Pool) (t : Int) : Bool :=
  match divI32 t pool.tick_spacing with
  | some scaled => bitmapBit pool (position scaled).1 (position scaled).2
  | none => false

/-- The invariant exactly as the claim states it, per tick: presence in
the sparse map iff the addressed bitmap bit is set, and zero gross
liquidity iff absence. -/
def claimInvariant (pool : UniswapV3Pool) : Prop :=
  ∀ t : Int, ((pool.ticks t).isSome = true ↔ bitForTick pool t = true) ∧
    (grossOf pool t = 0 ↔ pool.ticks t = none)

/-- The amended invariant: positive spacing, every stored tick a multiple
of the spacing with nonzero gross liquidity, and, among multiples of the
spacing, presence coinciding with the addressed bitmap bit. -/
def tickMapInvariant (pool : UniswapV3Pool) : Prop :=
  0 < pool.tick_spacing ∧
  (∀ t info, pool.ticks t = some info →
    pool.tick_spacing ∣ t ∧ info.liquidity_gross ≠ 0) ∧
  (∀ t, pool.tick_spacing ∣ t →
    ((pool.ticks t).isSome = true ↔ bitForTick pool t = true))

theorem divI32_of_pos {t sp : Int} (h : 0 < sp) :
    divI32 t sp = some (Int.tdiv t sp) := by
  unfold divI32
  rw [if_neg]
  rintro (h0 | ⟨-, hm⟩) <;> omega

theorem tdiv_inj_of_dvd {sp t u : Int} (hsp : sp ≠ 0) (ht : sp ∣ t) (hu : sp ∣ u)
    (h : Int.tdiv t sp = Int.tdiv u sp) : t = u := by
  obtain ⟨a, ha⟩ := ht
  obtain ⟨b, hb⟩ := hu
  subst ha hb
  rw [mul_comm sp a, mul_comm sp b, Int.mul_tdiv_cancel a hsp,
    Int.mul_tdiv_cancel b hsp] at h
  rw [h]

/-- Among multiples of a positive spacing, the bitmap bit addressed for
tick t is hit by toggling tick u exactly when u = t. -/
theorem tickBitHit_multiple {sp t u : Int} (hsp : 0 < sp) (ht : sp ∣ t) (hu : sp ∣ u) :
    tickBitHit sp u (position (Int.tdiv t sp)).1 (position (Int.tdiv t sp)).2 =
      decide (u = t) := by
  rw [tickBitHit, divI32_of_pos hsp, Option.map_some', decide_eq_decide,
    Option.some.injEq]
  constructor
  · intro h
    have h2 : Int.tdiv u sp = Int.tdiv t sp := position_injective (by
      rcases h with h
      exact h.symm ▸ rfl)
    exact tdiv_inj_of_dvd (by omega) hu ht h2
  · intro h
    subst h
    rfl

theorem tickMapInvariant_congr {a b : UniswapV3Pool} (ht : a.ticks = b.ticks)
    (hb : a.tick_bitmap = b.tick_bitmap) (hs : a.tick_spacing = b.tick_spacing)
    (hinv : tickMapInvariant b) : tickMapInvariant a := by
  have hbit : ∀ t, bitForTick a t = bitForTick b t := by
    intro t
    simp only [bitForTick, bitmapBit, hb, hs]
  obtain ⟨h1, h2, h3⟩ := hinv
  refine ⟨hs ▸ h1, fun t info hti => ?_, fun t hdvd => ?_⟩
  · rw [ht] at hti
    obtain ⟨hd, hg⟩ := h2 t info hti
    exact ⟨hs ▸ hd, hg⟩
  · rw [ht, hbit t]
    exact h3 t (hs ▸ hdvd)

/-- Arithmetic core of invariant preservation at one boundary tick: with
fb the flipped flag computed from the gross liquidity gB before and gA
after, the tick survives the transition exactly when its bit ends up
set. -/
theorem flip_presence_aux {d : Int} {gB gA : Nat} {fb : Bool}
    (hf : fb = ((decide (gA = 0)) != (decide (gB = 0))))
    (hconstr : (d < 0 ∧ 1 ≤ (-d).toNat ∧ (-d).toNat ≤ gB ∧ gA = gB - (-d).toNat)
             ∨ (0 ≤ d ∧ 1 ≤ d.toNat ∧ gA = gB + d.toNat)) :
    (¬(d < 0 ∧ fb = true)) ↔ Bool.xor (decide (gB ≠ 0)) fb = true := by
  rcases hconstr with ⟨hdneg, hm1, hmle, hgA⟩ | ⟨hdpos, hd1, hgA⟩
  · have hgB : gB ≠ 0 := by omega
    have hfb : fb = decide (gA = 0) := by
      rw [hf]
      simp [hgB]
    simp only [hgB, decide_not]
    cases hga : decide (gA = 0) with
    | false =>
      rw [hfb, hga]
      simp [hdneg, hgB]
    | true =>
      rw [hfb, hga]
      simp [hdneg, hgB]
  · have hgA0 : gA ≠ 0 := by omega
    have hfb : fb = decide (gB = 0) := by
      rw [hf]
      simp [hgA0]
    have hdn : ¬ d < 0 := by omega
    by_cases hgB : gB = 0
    · rw [hfb]
      simp [hdn, hgB]
    · rw [hfb]
      simp [hdn, hgB]

/-- C2 amended: a mint or burn applied over boundary ticks that are
multiples of the (positive) tick spacing preserves the tick-map
invariant: every stored tick stays a multiple of the spacing with
nonzero gross liquidity, and among multiples of the spacing a tick
is present exactly when its addressed bitmap bit is set. -/
theorem mint_burn_preserves_tick_map_invariant {pool p' : UniswapV3Pool}
    {lo hi d : Int} {sync : Bool} (hinv : tickMapInvariant pool)
    (hlo : pool.tick_spacing ∣ lo) (hhi : pool.tick_spacing ∣ hi)
    (h : modify_position pool lo hi d sync = some p') :
    tickMapInvariant p' := by
  obtain ⟨p1, h1, hpt, hpb, -, hpsp, -, -⟩ := modify_position_inv h
  refine tickMapInvariant_congr hpt hpb hpsp ?_
  by_cases hd : d = 0
  · subst hd
    simp only [update_position, ne_eq, not_true_eq_false, if_false,
      Option.some.injEq] at h1
    rw [← h1]
    exact hinv
  · obtain ⟨q1, f1, q2, f2, hu1, hu2, hsp', htk', hlq', hother, hlo', hhi', hbits⟩ :=
      update_position_effect hd h1
    have hsppos : 0 < pool.tick_spacing := hinv.1
    obtain ⟨gA1, net1, hg1, -, -, -, hf1, hq1⟩ := update_tick_char hu1
    obtain ⟨gA2, net2, hg2, -, -, -, hf2, hq2⟩ := update_tick_char hu2
    have hq1lo : q1.ticks lo = some
        { liquidity_net := net1,
          initialized := if grossOf pool lo = 0 then true else initOf pool lo,
          liquidity_gross := gA1 } := by
      rw [hq1]
      exact setAt_same _ _ _
    have hq2hi : q2.ticks hi = some
        { liquidity_net := net2,
          initialized := if grossOf q1 hi = 0 then true else initOf q1 hi,
          liquidity_gross := gA2 } := by
      rw [hq2]
      exact setAt_same _ _ _
    have hq1other : ∀ t, t ≠ lo → q1.ticks t = pool.ticks t := by
      intro t ht
      rw [hq1]
      exact setAt_other _ _ _ _ ht
    -- gross liquidity is nonzero exactly on present ticks
    have hgross_present : ∀ t, (pool.ticks t).isSome = true → grossOf pool t ≠ 0 := by
      intro t hs
      cases hpt2 : pool.ticks t with
      | none => rw [hpt2] at hs; cases hs
      | some info =>
        have hne := (hinv.2.1 t info hpt2).2
        simp [grossOf, hpt2]
        exact hne
    have hgross_absent : ∀ t, pool.ticks t = none → grossOf pool t = 0 := by
      intro t hpt2
      simp [grossOf, hpt2, TickInfo.empty]
    have hpoolbit : ∀ t, pool.tick_spacing ∣ t →
        bitForTick pool t = decide (grossOf pool t ≠ 0) := by
      intro t hdvd
      have hiff := hinv.2.2 t hdvd
      by_cases hg : grossOf pool t = 0
      · have hrhs : decide (grossOf pool t ≠ 0) = false := by simp [hg]
        rw [hrhs]
        cases hpt2 : pool.ticks t with
        | none =>
          rw [hpt2] at hiff
          simp at hiff
          cases hb : bitForTick pool t with
          | false => rfl
          | true => rw [hb] at hiff; cases hiff
        | some info =>
          exfalso
          apply (hinv.2.1 t info hpt2).2
          have hge : grossOf pool t = info.liquidity_gross := by simp [grossOf, hpt2]
          omega
      · have hrhs : decide (grossOf pool t ≠ 0) = true := by simp [hg]
        rw [hrhs]
        cases hpt2 : pool.ticks t with
        | none => exact absurd (hgross_absent t hpt2) hg
        | some info =>
          rw [hpt2] at hiff
          simp at hiff
          exact hiff
    -- the flipped-flag constraints in the form flip_presence_aux expects
    have hc1 : (d < 0 ∧ 1 ≤ (-d).toNat ∧ (-d).toNat ≤ grossOf pool lo ∧
          gA1 = grossOf pool lo - (-d).toNat)
        ∨ (0 ≤ d ∧ 1 ≤ d.toNat ∧ gA1 = grossOf pool lo + d.toNat) := by
      rcases hg1 with ⟨ha, hb, hc, hd2⟩ | ⟨ha, hb, hc⟩
      · exact Or.inl ⟨ha, by unfold i128Min at hb; omega, hc, hd2⟩
      · exact Or.inr ⟨ha, by omega, hc⟩
    have hc2 : (d < 0 ∧ 1 ≤ (-d).toNat ∧ (-d).toNat ≤ grossOf q1 hi ∧
          gA2 = grossOf q1 hi - (-d).toNat)
        ∨ (0 ≤ d ∧ 1 ≤ d.toNat ∧ gA2 = grossOf q1 hi + d.toNat) := by
      rcases hg2 with ⟨ha, hb, hc, hd2⟩ | ⟨ha, hb, hc⟩
      · exact Or.inl ⟨ha, by unfold i128Min at hb; omega, hc, hd2⟩
      · exact Or.inr ⟨ha, by omega, hc⟩
    refine ⟨by rw [hsp']; exact hsppos, ?_, ?_⟩
    · -- every stored tick is a multiple with nonzero gross liquidity
      intro t info hti
      by_cases hthi : t = hi
      · subst hthi
        rw [hhi'] at hti
        by_cases hcr : d < 0 ∧ f2 = true
        · rw [if_pos hcr] at hti; cases hti
        · rw [if_neg hcr, hq2hi] at hti
          injection hti with hinfo
          rw [hsp']
          refine ⟨hhi, ?_⟩
          rw [← hinfo]
          show gA2 ≠ 0
          rcases hc2 with ⟨hdneg, hm1, hmle, hgA⟩ | ⟨hdpos, hd1, hgA⟩
          · have hgB : grossOf q1 t ≠ 0 := by omega
            have hf2f : f2 = false := by
              cases hcf : f2 with
              | false => rfl
              | true => exact absurd ⟨hdneg, hcf⟩ hcr
            rw [hf2f] at hf2
            have hdec : decide (gA2 = 0) = false := by
              cases hdc : decide (gA2 = 0) with
              | false => rfl
              | true => rw [hdc] at hf2; simp [hgB] at hf2
            exact of_decide_eq_false hdec
          · omega
      · by_cases htlo : t = lo
        · subst htlo
          rw [hlo' hthi] at hti
          by_cases hcr : d < 0 ∧ f1 = true
          · rw [if_pos hcr] at hti; cases hti
          · rw [if_neg hcr, hq1lo] at hti
            injection hti with hinfo
            rw [hsp']
            refine ⟨hlo, ?_⟩
            rw [← hinfo]
            show gA1 ≠ 0
            rcases hc1 with ⟨hdneg, hm1, hmle, hgA⟩ | ⟨hdpos, hd1, hgA⟩
            · have hgB : grossOf pool t ≠ 0 := by omega
              have hf1f : f1 = false := by
                cases hcf : f1 with
                | false => rfl
                | true => exact absurd ⟨hdneg, hcf⟩ hcr
              rw [hf1f] at hf1
              have hdec : decide (gA1 = 0) = false := by
                cases hdc : decide (gA1 = 0) with
                | false => rfl
                | true => rw [hdc] at hf1; simp [hgB] at hf1
              exact of_decide_eq_false hdec
            · omega
        · rw [hother t htlo hthi] at hti
          rw [hsp']
          exact hinv.2.1 t info hti
    · -- presence coincides with the addressed bit among multiples
      intro t hdvd0
      have hdvd : pool.tick_spacing ∣ t := hsp' ▸ hdvd0
      have hbitp1 : bitForTick p1 t =
          Bool.xor (Bool.xor (bitForTick pool t) (f1 && decide (lo = t)))
            (f2 && decide (hi = t)) := by
        have he1 : bitForTick p1 t = bitmapBit p1
            (position (Int.tdiv t pool.tick_spacing)).1
            (position (Int.tdiv t pool.tick_spacing)).2 := by
          simp only [bitForTick, hsp', divI32_of_pos hsppos]
        have he2 : bitForTick pool t = bitmapBit pool
            (position (Int.tdiv t pool.tick_spacing)).1
            (position (Int.tdiv t pool.tick_spacing)).2 := by
          simp only [bitForTick, divI32_of_pos hsppos]
        rw [he1, hbits, he2, tickBitHit_multiple hsppos hdvd hlo,
          tickBitHit_multiple hsppos hdvd hhi]
      by_cases hthi : t = hi
      · subst hthi
        -- presence at the upper boundary
        have hpres : (p1.ticks t).isSome = true ↔ ¬(d < 0 ∧ f2 = true) := by
          rw [hhi']
          by_cases hcr : d < 0 ∧ f2 = true
          · rw [if_pos hcr]
            simp [hcr]
          · rw [if_neg hcr, hq2hi]
            simp [hcr]
        rw [hpres, hbitp1]
        have hcollapse : Bool.xor (bitForTick pool t) (f1 && decide (lo = t)) =
            decide (grossOf q1 t ≠ 0) := by
          by_cases hlh : lo = t
          · have hgb : grossOf q1 t = gA1 := by
              rw [← hlh]
              simp [grossOf, hq1lo]
            rw [hgb, hpoolbit t hdvd, ← hlh]
            have hgross_eq : grossOf pool lo ≠ 0 ↔ ¬ (grossOf pool lo = 0) := Iff.rfl
            rw [hf1]
            cases hga : decide (gA1 = 0) with
            | false =>
              cases hgz : decide (grossOf pool lo = 0) with
              | false => simp [of_decide_eq_false hga, of_decide_eq_false hgz]
              | true => simp [of_decide_eq_false hga, of_decide_eq_true hgz]
            | true =>
              cases hgz : decide (grossOf pool lo = 0) with
              | false => simp [of_decide_eq_true hga, of_decide_eq_false hgz]
              | true => simp [of_decide_eq_true hga, of_decide_eq_true hgz]
          · have hgb : grossOf q1 t = grossOf pool t := by
              simp [grossOf, hq1other t (fun hcon => hlh hcon.symm)]
            rw [hgb, hpoolbit t hdvd]
            simp [hlh]
        rw [hcollapse]
        rw [show decide (t = t) = true from by simp, Bool.and_true]
        exact flip_presence_aux hf2 hc2
      · by_cases htlo : t = lo
        · subst htlo
          have hpres : (p1.ticks t).isSome = true ↔ ¬(d < 0 ∧ f1 = true) := by
            rw [hlo' (fun hcon => hthi hcon)]
            by_cases hcr : d < 0 ∧ f1 = true
            · rw [if_pos hcr]
              simp [hcr]
            · rw [if_neg hcr, hq1lo]
              simp [hcr]
          have hne2 : hi ≠ t := fun hcon => hthi hcon.symm
          rw [hpres, hbitp1]
          rw [show decide (t = t) = true from by simp, Bool.and_true,
            show decide (hi = t) = false from by simp [hne2]]
          simp only [Bool.and_false, Bool.xor_false]
          rw [hpoolbit t hdvd]
          exact flip_presence_aux hf1 hc1
        · have hpres : p1.ticks t = pool.ticks t := hother t htlo hthi
          have hne1 : lo ≠ t := fun hcon => htlo hcon.symm
          have hne2 : hi ≠ t := fun hcon => hthi hcon.symm
          rw [hpres, hbitp1]
          rw [show decide (lo = t) = false from by simp [hne1],
            show decide (hi = t) = false from by simp [hne2]]
          simp only [Bool.and_false, Bool.xor_false]
          exact hinv.2.2 t hdvd

/-- Counterexample pool for C2: spacing 10, current tick 100, every tick
in [-9, 9] present with gross liquidity 5, and exactly bit 0 of word 0
set; under truncating division all of those ticks address that one
bit, so the per-tick invariant holds. -/
def c2pool : UniswapV3Pool :=
  { UniswapV3Pool.empty with
      tick := 100, tick_spacing := 10,
      tick_bitmap := fun w => if w = 0 then some 1 else none,
      ticks := fun t => if -9 ≤ t ∧ t ≤ 9 then some
        { liquidity_net := 5, initialized := true, liquidity_gross := 5 } else none }

theorem c2_tdiv_ten (t : Int) : Int.tdiv t 10 = 0 ↔ (-9 ≤ t ∧ t ≤ 9) := by
  rcases le_or_lt 0 t with hpos | hneg
  · rw [Int.tdiv_eq_ediv hpos (by norm_num)]
    omega
  · have ht : t = -(-t) := by omega
    rw [ht, Int.neg_tdiv, Int.tdiv_eq_ediv (by omega) (by norm_num)]
    omega

theorem c2_bit (t : Int) : bitForTick c2pool t = true ↔ Int.tdiv t 10 = 0 := by
  have hdiv : divI32 t (10 : Int) = some (Int.tdiv t 10) := divI32_of_pos (by norm_num)
  have h1 : bitForTick c2pool t = bitmapBit c2pool (position (Int.tdiv t 10)).1
      (position (Int.tdiv t 10)).2 := by
    simp only [bitForTick]
    rw [show c2pool.tick_spacing = 10 from rfl, hdiv]
  rw [h1]
  have hmod_nonneg : 0 ≤ Int.tdiv t 10 % 256 := Int.emod_nonneg _ (by norm_num)
  have hmod_lt : Int.tdiv t 10 % 256 < 256 := Int.emod_lt_of_pos _ (by norm_num)
  show bitmapBit c2pool (Int.tdiv t 10 / 256) (Int.tdiv t 10 % 256).toNat = true ↔ _
  by_cases hw : Int.tdiv t 10 / 256 = 0
  · have hb1 : c2pool.tick_bitmap (Int.tdiv t 10 / 256) = some 1 := by
      show (if Int.tdiv t 10 / 256 = 0 then some 1 else none) = some 1
      rw [if_pos hw]
    simp only [bitmapBit, hb1, Option.getD_some]
    rw [show (1 : Nat) = 2 ^ 0 from rfl, Nat.testBit_two_pow, decide_eq_true_eq]
    constructor
    · intro h0
      omega
    · intro h0
      omega
  · have hb1 : c2pool.tick_bitmap (Int.tdiv t 10 / 256) = none := by
      show (if Int.tdiv t 10 / 256 = 0 then some 1 else none) = none
      rw [if_neg hw]
    simp only [bitmapBit, hb1, Option.getD_none, Nat.zero_testBit]
    constructor
    · intro hfalse
      cases hfalse
    · intro h0
      exfalso
      apply hw
      omega

theorem c2pool_claimInvariant : claimInvariant c2pool := by
  intro t
  have hb := c2_bit t
  have ht := c2_tdiv_ten t
  constructor
  · by_cases hr : -9 ≤ t ∧ t ≤ 9
    · have hpt : c2pool.ticks t = some
          { liquidity_net := 5, initialized := true, liquidity_gross := 5 } := by
        show (if -9 ≤ t ∧ t ≤ 9 then some _ else none) = _
        rw [if_pos hr]
      rw [hpt]
      simp only [Option.isSome_some, true_iff]
      exact hb.mpr (ht.mpr hr)
    · have hpt : c2pool.ticks t = none := by
        show (if -9 ≤ t ∧ t ≤ 9 then some _ else none) = _
        rw [if_neg hr]
      rw [hpt]
      simp only [Option.isSome_none, Bool.false_eq_true, false_iff]
      intro hbit
      exact absurd (ht.mp (hb.mp hbit)) hr
  · by_cases hr : -9 ≤ t ∧ t ≤ 9
    · have hpt : c2pool.ticks t = some
          { liquidity_net := 5, initialized := true, liquidity_gross := 5 } := by
        show (if -9 ≤ t ∧ t ≤ 9 then some _ else none) = _
        rw [if_pos hr]
      simp [grossOf, hpt]
    · have hpt : c2pool.ticks t = none := by
        show (if -9 ≤ t ∧ t ≤ 9 then some _ else none) = _
        rw [if_neg hr]
      simp [grossOf, hpt, TickInfo.empty]

/-- State after burning 5 over [0, 5) on the counterexample pool. -/
def c2post : UniswapV3Pool :=
  (modify_position c2pool 0 5 (-5) false).getD UniswapV3Pool.empty

set_option maxRecDepth 8000 in
/-- C2 counterexample: c2pool satisfies the claimed per-tick invariant,
the burn event over ticks [0, 5) with amount 5 succeeds, and the
resulting state violates the invariant: tick 0 is gone from the map but
its bit (shared with the still-present ticks 1..4 under truncating
division by the spacing 10) is still set. -/
theorem mint_burn_claim_invariant_counterexample :
    claimInvariant c2pool ∧
    modify_position c2pool 0 5 (-5) false = some c2post ∧
    ¬ claimInvariant c2post := by
  refine ⟨c2pool_claimInvariant, rfl, ?_⟩
  intro hcl
  have h0 := (hcl 0).1
  have hnone : c2post.ticks 0 = none := by decide
  have hbit : bitForTick c2post 0 = true := by decide
  rw [hnone] at h0
  simp only [Option.isSome_none, Bool.false_eq_true, false_iff] at h0
  exact h0 hbit

/-- Witness pool for the amended C2: empty state with spacing 1. -/
def c2wpool : UniswapV3Pool :=
  { UniswapV3Pool.empty with tick_spacing := 1 }

/-- State after the witness mint on c2wpool. -/
def c2wpost : UniswapV3Pool :=
  (modify_position c2wpool 0 10 5 true).getD UniswapV3Pool.empty

theorem c2wpool_invariant : tickMapInvariant c2wpool := by
  refine ⟨by decide, ?_, ?_⟩
  · intro t info hcon
    cases hcon
  intro t hdvd
  have hbit : bitForTick c2wpool t = false := by
    simp only [bitForTick, divI32_of_pos (show (0 : Int) < c2wpool.tick_spacing by decide)]
    exact Nat.zero_testBit _
  rw [hbit]
  simp only [Bool.false_eq_true, iff_false]
  intro hcon
  rw [show c2wpool.ticks t = none from rfl] at hcon
  cases hcon

set_option maxRecDepth 8000 in
/-- Witness for the amended C2: minting 5 over [0, 10) on the empty pool
with spacing 1 preserves the tick-map invariant. -/
theorem mint_burn_preserves_tick_map_invariant_witness :
    tickMapInvariant c2wpool ∧
    modify_position c2wpool 0 10 5 true = some c2wpost ∧
    tickMapInvariant c2wpost :=
  ⟨c2wpool_invariant, rfl,
   mint_burn_preserves_tick_map_invariant c2wpool_invariant (one_dvd 0) (one_dvd 10)
     (show modify_position c2wpool 0 10 5 true = some c2wpost from rfl)⟩

/-! ### Claim C1: mint-then-burn round trip -/

/-- Counterexample pool for C1: tick 0 stored with zero gross liquidity
but nonzero net liquidity (a state outside the reachable invariant, but
the claim quantifies over every pool state). -/
def c1pool : UniswapV3Pool :=
  { UniswapV3Pool.empty with
      tick := 100, tick_spacing := 10,
      ticks := fun t => if t = 0 then some
        { liquidity_net := 1, initialized := false, liquidity_gross := 0 } else none }

/-- State after mint(0, 10, 5) then burn(0, 10, 5) on c1pool. -/
def c1post : UniswapV3Pool :=
  ((modify_position c1pool 0 10 5 false).bind
    (fun p1 => modify_position p1 0 10 (-5) false)).getD UniswapV3Pool.empty

set_option maxRecDepth 8000 in
/-- C1 counterexample: on c1pool both transitions succeed, yet the burn
removes the TickInfo at tick 0 entirely, so the entry (present before
the mint, with net liquidity 1) is not returned to its pre-mint value. -/
theorem mint_burn_roundtrip_counterexample :
    (modify_position c1pool 0 10 5 false).bind
      (fun p1 => modify_position p1 0 10 (-5) false) = some c1post ∧
    c1post.ticks 0 = none ∧
    c1pool.ticks 0 = some
      { liquidity_net := 1, initialized := false, liquidity_gross := 0 } := by
  refine ⟨rfl, by decide, by decide⟩

theorem xor2_cancel : ∀ B x : Bool, Bool.xor (Bool.xor B x) x = B := by decide

theorem xor4_cancel : ∀ B x y : Bool,
    Bool.xor (Bool.xor (Bool.xor (Bool.xor B x) y) x) y = B := by decide

/-- C1 amended: for a pool state in which each present boundary-tick
entry has nonzero gross liquidity and a liquidity amount representable
as a nonnegative i128 delta, applying mint(lo, hi, D) and then
burn(lo, hi, D) returns every TickInfo entry (value and
presence/absence) and every bitmap bit to its pre-mint state. -/
theorem mint_burn_roundtrip {pool pool1 pool2 : UniswapV3Pool} {lo hi : Int} {D : Nat}
    {sync1 sync2 : Bool}
    (hDmax : (D : Int) ≤ i128Max)
    (hlo : ∀ info, pool.ticks lo = some info → info.liquidity_gross ≠ 0)
    (hhi : ∀ info, pool.ticks hi = some info → info.liquidity_gross ≠ 0)
    (hmint : modify_position pool lo hi (D : Int) sync1 = some pool1)
    (hburn : modify_position pool1 lo hi (-(D : Int)) sync2 = some pool2) :
    (∀ t, pool2.ticks t = pool.ticks t) ∧
    (∀ w b, bitmapBit pool2 w b = bitmapBit pool w b) := by
  by_cases hD0 : D = 0
  · subst hD0
    simp [modify_position, update_position] at hmint hburn
    rw [← hburn, ← hmint]
    exact ⟨fun t => rfl, fun w b => rfl⟩
  have hDpos : 0 < D := Nat.pos_of_ne_zero hD0
  have hd0 : (D : Int) ≠ 0 := by
    intro hcon
    omega
  have hd0n : -(D : Int) ≠ 0 := by
    intro hcon
    omega
  obtain ⟨m1, hup1, hp1t, hp1b, -, hp1sp, -, -⟩ := modify_position_inv hmint
  obtain ⟨m2, hup2, hp2t, hp2b, -, hp2sp, -, -⟩ := modify_position_inv hburn
  obtain ⟨q1, f1, q2, f2, hu1, hu2, hsp1, -, -, hoth1, hlo1, hhi1, hbit1⟩ :=
    update_position_effect hd0 hup1
  obtain ⟨r1, e1, r2, e2, hv1, hv2, hsp2, -, -, hoth2, hlo2, hhi2, hbit2⟩ :=
    update_position_effect hd0n hup2
  obtain ⟨gm1, nm1, hgm1, hnm1, -, -, hfm1, hqm1⟩ := update_tick_char hu1
  obtain ⟨gm2, nm2, hgm2, hnm2, -, -, hfm2, hqm2⟩ := update_tick_char hu2
  obtain ⟨gb1, nb1, hgb1, hnb1, -, -, heb1, hrb1⟩ := update_tick_char hv1
  obtain ⟨gb2, nb2, hgb2, hnb2, -, -, heb2, hrb2⟩ := update_tick_char hv2
  simp only [Bool.false_eq_true, if_false, if_true] at hnm1 hnm2 hnb1 hnb2
  -- the mint adds D at each boundary, the burn subtracts it again
  have hgm1v : gm1 = grossOf pool lo + D := by
    rcases hgm1 with ⟨hneg, -, -, -⟩ | ⟨-, -, hv⟩ <;> omega
  have hgm2v : gm2 = grossOf q1 hi + D := by
    rcases hgm2 with ⟨hneg, -, -, -⟩ | ⟨-, -, hv⟩ <;> omega
  have hgb1v : D ≤ grossOf pool1 lo ∧ gb1 = grossOf pool1 lo - D := by
    rcases hgb1 with ⟨-, -, hle, hv⟩ | ⟨hpos, -, -⟩ <;> constructor <;> omega
  have hgb2v : D ≤ grossOf r1 hi ∧ gb2 = grossOf r1 hi - D := by
    rcases hgb2 with ⟨-, -, hle, hv⟩ | ⟨hpos, -, -⟩ <;> constructor <;> omega
  -- pointwise descriptions of the four update_tick writes
  have hq1lo : q1.ticks lo = some
      { liquidity_net := nm1,
        initialized := if grossOf pool lo = 0 then true else initOf pool lo,
        liquidity_gross := gm1 } := by
    rw [hqm1]
    exact setAt_same _ _ _
  have hq1o : ∀ t, t ≠ lo → q1.ticks t = pool.ticks t := by
    intro t ht
    rw [hqm1]
    exact setAt_other _ _ _ _ ht
  have hq2hi : q2.ticks hi = some
      { liquidity_net := nm2,
        initialized := if grossOf q1 hi = 0 then true else initOf q1 hi,
        liquidity_gross := gm2 } := by
    rw [hqm2]
    exact setAt_same _ _ _
  have hr1lo : r1.ticks lo = some
      { liquidity_net := nb1,
        initialized := if grossOf pool1 lo = 0 then true else initOf pool1 lo,
        liquidity_gross := gb1 } := by
    rw [hrb1]
    exact setAt_same _ _ _
  have hr1o : ∀ t, t ≠ lo → r1.ticks t = pool1.ticks t := by
    intro t ht
    rw [hrb1]
    exact setAt_other _ _ _ _ ht
  have hr2hi : r2.ticks hi = some
      { liquidity_net := nb2,
        initialized := if grossOf r1 hi = 0 then true else initOf r1 hi,
        liquidity_gross := gb2 } := by
    rw [hrb2]
    exact setAt_same _ _ _
  -- the mint performs no removals
  have hnegD : ¬ ((D : Int) < 0) := by omega
  have hm1lo : lo ≠ hi → m1.ticks lo = q1.ticks lo := by
    intro hlh
    rw [hlo1 hlh, if_neg]
    rintro ⟨hneg, -⟩
    exact hnegD hneg
  have hm1hi : m1.ticks hi = q2.ticks hi := by
    rw [hhi1, if_neg]
    rintro ⟨hneg, -⟩
    exact hnegD hneg
  have hpool1lo : lo ≠ hi → pool1.ticks lo = q1.ticks lo := by
    intro hlh
    rw [hp1t]
    exact hm1lo hlh
  have hpool1hi : pool1.ticks hi = q2.ticks hi := by
    rw [hp1t]
    exact hm1hi
  have hpool1o : ∀ t, t ≠ lo → t ≠ hi → pool1.ticks t = pool.ticks t := by
    intro t h1 h2
    rw [hp1t]
    exact hoth1 t h1 h2
  have hnegDtrue : -(D : Int) < 0 := by omega
  -- the burn removes a boundary exactly when its gross liquidity drains
  have hfinlo : lo ≠ hi → pool2.ticks lo = if e1 = true then none else r1.ticks lo := by
    intro hlh
    rw [hp2t, hlo2 hlh]
    by_cases he : e1 = true
    · rw [if_pos ⟨hnegDtrue, he⟩, if_pos he]
    · rw [if_neg (fun hcon => he hcon.2), if_neg he]
  have hfinhi : pool2.ticks hi = if e2 = true then none else r2.ticks hi := by
    rw [hp2t, hhi2]
    by_cases he : e2 = true
    · rw [if_pos ⟨hnegDtrue, he⟩, if_pos he]
    · rw [if_neg (fun hcon => he hcon.2), if_neg he]
  refine ⟨?_, ?_⟩
  · -- every TickInfo entry is restored
    intro t
    by_cases hthi : t = hi
    · subst hthi
      by_cases hlh : lo = t
      · -- the degenerate range: both boundaries are the same tick
        subst hlh
        -- gross chain: g, g + D, g + 2D back down to g
        have hgq1 : grossOf q1 lo = gm1 := by simp [grossOf, hq1lo]
        have hgp1 : grossOf pool1 lo = gm2 := by simp [grossOf, hpool1hi, hq2hi]
        have hgr1 : grossOf r1 lo = gb1 := by simp [grossOf, hr1lo]
        have hnq1 : netOf q1 lo = nm1 := by simp [netOf, hq1lo]
        have hnp1 : netOf pool1 lo = nm2 := by simp [netOf, hpool1hi, hq2hi]
        have hnr1 : netOf r1 lo = nb1 := by simp [netOf, hr1lo]
        have hiq1 : initOf q1 lo =
            (if grossOf pool lo = 0 then true else initOf pool lo) := by
          simp [initOf, hq1lo]
        have hip1 : initOf pool1 lo =
            (if grossOf q1 lo = 0 then true else initOf q1 lo) := by
          simp [initOf, hpool1hi, hq2hi]
        have hir1 : initOf r1 lo =
            (if grossOf pool1 lo = 0 then true else initOf pool1 lo) := by
          simp [initOf, hr1lo]
        -- numeric facts
        have hgm1ne : gm1 ≠ 0 := by omega
        have hgm2ne : gm2 ≠ 0 := by
          rw [hgm2v, hgq1]
          omega
        have hgb1v' : gb1 = gm1 := by
          rw [hgb1v.2, hgp1, hgm2v, hgq1]
          omega
        have hgb2v' : gb2 = grossOf pool lo := by
          rw [hgb2v.2, hgr1, hgb1v', hgm1v]
          omega
        have he2v : e2 = decide (grossOf pool lo = 0) := by
          rw [heb2, hgb2v']
          have hne : grossOf r1 lo ≠ 0 := by
            rw [hgr1, hgb1v']
            omega
          cases hdg : decide (grossOf pool lo = 0) <;> simp [hne, hdg]
        rw [hfinhi, he2v]
        by_cases hg : grossOf pool lo = 0
        · -- the tick was absent before the mint and is removed by the burn
          rw [if_pos (by simp [hg])]
          cases hplo : pool.ticks lo with
          | none => rfl
          | some info0 =>
            exfalso
            apply hlo info0 hplo
            have : grossOf pool lo = info0.liquidity_gross := by simp [grossOf, hplo]
            omega
        · -- the tick was present and its exact record is rebuilt
          rw [if_neg (by simp [hg])]
          cases hplo : pool.ticks lo with
          | none =>
            exfalso
            apply hg
            simp [grossOf, hplo, TickInfo.empty]
          | some info0 =>
            have hgeq : grossOf pool lo = info0.liquidity_gross := by simp [grossOf, hplo]
            have hneq : netOf pool lo = info0.liquidity_net := by simp [netOf, hplo]
            have hieq : initOf pool lo = info0.initialized := by simp [initOf, hplo]
            rw [hr2hi]
            have h1 : nb2 = info0.liquidity_net := by
              rw [hnb2, hnr1, hnb1, hnp1, hnm2, hnq1, hnm1, hneq]
              ring
            have h2 : gb2 = info0.liquidity_gross := by
              rw [hgb2v', hgeq]
            have h3 : (if grossOf r1 lo = 0 then true else initOf r1 lo) =
                info0.initialized := by
              have hner1 : grossOf r1 lo ≠ 0 := by
                rw [hgr1, hgb1v']
                omega
              rw [if_neg hner1, hir1, if_neg (by rw [hgp1]; exact hgm2ne), hip1,
                if_neg (by rw [hgq1]; exact hgm1ne), hiq1, if_neg hg, hieq]
            rw [h1, h2, h3]
      · -- t = hi with lo ≠ hi
        have hlh' : lo ≠ t := hlh
        have hghi : grossOf q1 t = grossOf pool t := by
          simp [grossOf, hq1o t (fun hcon => hlh hcon.symm)]
        have hnhi : netOf q1 t = netOf pool t := by
          simp [netOf, hq1o t (fun hcon => hlh hcon.symm)]
        have hihi : initOf q1 t = initOf pool t := by
          simp [initOf, hq1o t (fun hcon => hlh hcon.symm)]
        have hgr1hi : grossOf r1 t = gm2 := by
          have := hr1o t (fun hcon => hlh hcon.symm)
          simp [grossOf, this, hpool1hi, hq2hi]
        have hnr1hi : netOf r1 t = nm2 := by
          have := hr1o t (fun hcon => hlh hcon.symm)
          simp [netOf, this, hpool1hi, hq2hi]
        have hir1hi : initOf r1 t =
            (if grossOf q1 t = 0 then true else initOf q1 t) := by
          have := hr1o t (fun hcon => hlh hcon.symm)
          simp [initOf, this, hpool1hi, hq2hi]
        have hgm2ne : gm2 ≠ 0 := by
          rw [hgm2v]
          omega
        have hgb2v' : gb2 = grossOf pool t := by
          rw [hgb2v.2, hgr1hi, hgm2v, hghi]
          omega
        have he2v : e2 = decide (grossOf pool t = 0) := by
          rw [heb2, hgb2v']
          have hne : grossOf r1 t ≠ 0 := by
            rw [hgr1hi]
            exact hgm2ne
          cases hdg : decide (grossOf pool t = 0) <;> simp [hne, hdg]
        rw [hfinhi, he2v]
        by_cases hg : grossOf pool t = 0
        · rw [if_pos (by simp [hg])]
          cases hplo : pool.ticks t with
          | none => rfl
          | some info0 =>
            exfalso
            apply hhi info0 hplo
            have : grossOf pool t = info0.liquidity_gross := by simp [grossOf, hplo]
            omega
        · rw [if_neg (by simp [hg])]
          cases hplo : pool.ticks t with
          | none =>
            exfalso
            apply hg
            simp [grossOf, hplo, TickInfo.empty]
          | some info0 =>
            have hgeq : grossOf pool t = info0.liquidity_gross := by simp [grossOf, hplo]
            have hneq : netOf pool t = info0.liquidity_net := by simp [netOf, hplo]
            have hieq : initOf pool t = info0.initialized := by simp [initOf, hplo]
            rw [hr2hi]
            have h1 : nb2 = info0.liquidity_net := by
              rw [hnb2, hnr1hi, hnm2, hnhi, hneq]
              ring
            have h2 : gb2 = info0.liquidity_gross := by
              rw [hgb2v', hgeq]
            have h3 : (if grossOf r1 t = 0 then true else initOf r1 t) =
                info0.initialized := by
              rw [if_neg (by rw [hgr1hi]; exact hgm2ne), hir1hi, if_neg (by
                rw [hghi]; exact hg), hihi, hieq]
            rw [h1, h2, h3]
    · by_cases htlo : t = lo
      · -- t = lo with lo ≠ hi
        subst htlo
        have hlh : t ≠ hi := hthi
        have hgp1lo : grossOf pool1 t = gm1 := by
          simp [grossOf, hpool1lo hlh, hq1lo]
        have hnp1lo : netOf pool1 t = nm1 := by
          simp [netOf, hpool1lo hlh, hq1lo]
        have hip1lo : initOf pool1 t =
            (if grossOf pool t = 0 then true else initOf pool t) := by
          simp [initOf, hpool1lo hlh, hq1lo]
        have hgm1ne : gm1 ≠ 0 := by omega
        have hgb1v' : gb1 = grossOf pool t := by
          rw [hgb1v.2, hgp1lo, hgm1v]
          omega
        have he1v : e1 = decide (grossOf pool t = 0) := by
          rw [heb1, hgb1v']
          have hne : grossOf pool1 t ≠ 0 := by
            rw [hgp1lo]
            exact hgm1ne
          cases hdg : decide (grossOf pool t = 0) <;> simp [hne, hdg]
        rw [hfinlo hlh, he1v]
        by_cases hg : grossOf pool t = 0
        · rw [if_pos (by simp [hg])]
          cases hplo : pool.ticks t with
          | none => rfl
          | some info0 =>
            exfalso
            apply hlo info0 hplo
            have : grossOf pool t = info0.liquidity_gross := by simp [grossOf, hplo]
            omega
        · rw [if_neg (by simp [hg])]
          cases hplo : pool.ticks t with
          | none =>
            exfalso
            apply hg
            simp [grossOf, hplo, TickInfo.empty]
          | some info0 =>
            have hgeq : grossOf pool t = info0.liquidity_gross := by simp [grossOf, hplo]
            have hneq : netOf pool t = info0.liquidity_net := by simp [netOf, hplo]
            have hieq : initOf pool t = info0.initialized := by simp [initOf, hplo]
            rw [hr1lo]
            have h1 : nb1 = info0.liquidity_net := by
              rw [hnb1, hnp1lo, hnm1, hneq]
              ring
            have h2 : gb1 = info0.liquidity_gross := by
              rw [hgb1v', hgeq]
            have h3 : (if grossOf pool1 t = 0 then true else initOf pool1 t) =
                info0.initialized := by
              rw [if_neg (by rw [hgp1lo]; exact hgm1ne), hip1lo, if_neg hg, hieq]
            rw [h1, h2, h3]
      · -- untouched tick
        rw [hp2t, hoth2 t htlo hthi, hpool1o t htlo hthi]
  · -- every bitmap bit is restored
    intro w b
    have hspchain : pool1.tick_spacing = pool.tick_spacing := by
      rw [hp1sp, hsp1]
    have hb2 : bitmapBit pool2 w b = bitmapBit m2 w b := by
      simp [bitmapBit, hp2b]
    have hb1 : bitmapBit pool1 w b = bitmapBit m1 w b := by
      simp [bitmapBit, hp1b]
    rw [hb2, hbit2 w b, hspchain, hb1, hbit1 w b]
    by_cases hlh : lo = hi
    · -- one shared boundary: flags f2 and e1 vanish, f1 equals e2
      subst hlh
      have hgq1 : grossOf q1 lo = gm1 := by simp [grossOf, hq1lo]
      have hgp1 : grossOf pool1 lo = gm2 := by simp [grossOf, hpool1hi, hq2hi]
      have hgr1 : grossOf r1 lo = gb1 := by simp [grossOf, hr1lo]
      have hgm1ne : gm1 ≠ 0 := by omega
      have hgm2ne : gm2 ≠ 0 := by
        rw [hgm2v, hgq1]
        omega
      have hgb1ne : gb1 ≠ 0 := by
        rw [hgb1v.2, hgp1, hgm2v, hgq1]
        omega
      have hf1v : f1 = decide (grossOf pool lo = 0) := by
        rw [hfm1]
        cases hdg : decide (grossOf pool lo = 0) <;> simp [hgm1ne, hdg]
      have hf2v : f2 = false := by
        rw [hfm2]
        simp [hgm2ne, hgq1, hgm1ne]
      have he1v : e1 = false := by
        rw [heb1]
        simp [hgb1ne, hgp1, hgm2ne]
      have he2v : e2 = decide (grossOf pool lo = 0) := by
        rw [heb2]
        have hgb2v' : gb2 = grossOf pool lo := by
          rw [hgb2v.2, hgr1, hgb1v.2, hgp1, hgm2v, hgq1, hgm1v]
          omega
        rw [hgb2v', hgr1]
        cases hdg : decide (grossOf pool lo = 0) <;> simp [hgb1ne, hdg]
      rw [hf2v, he1v, hf1v, he2v]
      simp only [Bool.false_and, Bool.xor_false]
      exact xor2_cancel _ _
    · -- distinct boundaries: f1 = e1 and f2 = e2, each toggled twice
      have hghi : grossOf q1 hi = grossOf pool hi := by
        simp [grossOf, hq1o hi (fun hcon => hlh hcon.symm)]
      have hgp1lo : grossOf pool1 lo = gm1 := by
        simp [grossOf, hpool1lo hlh, hq1lo]
      have hgr1hi : grossOf r1 hi = gm2 := by
        have := hr1o hi (fun hcon => hlh hcon.symm)
        simp [grossOf, this, hpool1hi, hq2hi]
      have hgm1ne : gm1 ≠ 0 := by omega
      have hgm2ne : gm2 ≠ 0 := by
        rw [hgm2v]
        omega
      have hf1v : f1 = decide (grossOf pool lo = 0) := by
        rw [hfm1]
        cases hdg : decide (grossOf pool lo = 0) <;> simp [hgm1ne, hdg]
      have he1v : e1 = decide (grossOf pool lo = 0) := by
        rw [heb1]
        have hgb1v' : gb1 = grossOf pool lo := by
          rw [hgb1v.2, hgp1lo, hgm1v]
          omega
        rw [hgb1v', hgp1lo]
        cases hdg : decide (grossOf pool lo = 0) <;> simp [hgm1ne, hdg]
      have hf2v : f2 = decide (grossOf pool hi = 0) := by
        rw [hfm2, hghi]
        cases hdg : decide (grossOf pool hi = 0) <;> simp [hgm2ne, hdg]
      have he2v : e2 = decide (grossOf pool hi = 0) := by
        rw [heb2]
        have hgb2v' : gb2 = grossOf pool hi := by
          rw [hgb2v.2, hgr1hi, hgm2v, hghi]
          omega
        rw [hgb2v', hgr1hi]
        cases hdg : decide (grossOf pool hi = 0) <;> simp [hgm2ne, hdg]
      rw [he1v, ← hf1v, he2v, ← hf2v]
      exact xor4_cancel _ _ _

/-- Witness pool for the amended C1: empty state, spacing 10, current
tick 100. -/
def c1wpool : UniswapV3Pool :=
  { UniswapV3Pool.empty with tick_spacing := 10, tick := 100 }

/-- State after the witness mint of 5 over [0, 10). -/
def c1wmid : UniswapV3Pool :=
  (modify_position c1wpool 0 10 ((5 : Nat) : Int) false).getD UniswapV3Pool.empty

/-- State after the witness burn of 5 over [0, 10). -/
def c1wpost : UniswapV3Pool :=
  (modify_position c1wmid 0 10 (-((5 : Nat) : Int)) false).getD UniswapV3Pool.empty

set_option maxRecDepth 8000 in
/-- Witness for the amended C1 at a concrete input: minting and burning
5 over [0, 10) on the empty pool restores the boundary TickInfo entries
and the touched bitmap bits. -/
theorem mint_burn_roundtrip_witness :
    (((5 : Nat) : Int) ≤ i128Max ∧
      modify_position c1wpool 0 10 ((5 : Nat) : Int) false = some c1wmid ∧
      modify_position c1wmid 0 10 (-((5 : Nat) : Int)) false = some c1wpost) ∧
    (c1wpost.ticks 0 = c1wpool.ticks 0 ∧ c1wpost.ticks 10 = c1wpool.ticks 10) ∧
    (bitmapBit c1wpost 0 0 = bitmapBit c1wpool 0 0 ∧
      bitmapBit c1wpost 0 1 = bitmapBit c1wpool 0 1) := by
  have hm : modify_position c1wpool 0 10 ((5 : Nat) : Int) false = some c1wmid := rfl
  have hb : modify_position c1wmid 0 10 (-((5 : Nat) : Int)) false = some c1wpost := rfl
  have h := mint_burn_roundtrip (by decide) (fun info hcon => by cases hcon)
    (fun info hcon => by cases hcon) hm hb
  exact ⟨⟨by decide, hm, hb⟩, ⟨h.1 0, h.1 10⟩, ⟨h.2 0 0, h.2 0 1⟩⟩
